import Mathlib

/-!
Verification of the in-memory shell simulator.

A shallow embedding of the Rust sources of the `summative-assessment-2025`
repository: the lexer (`src/lexer.rs`), the parser (`src/parser.rs`), the
node store (`src/tree.rs`) and the per-verb commands (`src/commands/*.rs`),
together with theorems settling the specification claims.

Conventions of the embedding:
* Input text is modelled as `List Char`.  The Rust lexer mixes byte and
  character indices; the two coincide on single-byte (ASCII) inputs, which is
  the regime all theorems below are concerned with.
* `usize` is modelled as `Nat`; where the source can overflow or panic
  (e.g. `parse::<usize>().unwrap()` on a 64-bit target) the model makes the
  panic explicit through a dedicated result constructor.
* The `Rc`/`RefCell` node graph is modelled as an arena: a list of node
  records addressed by index, with parent back-references stored as indices
  (`none` models a dangling `Weak`).  Removal detaches a child from its
  parent's child list; the arena slot of a detached node simply becomes
  unreachable.
* Every `println!` is modelled as an emitted `Msg` event; each constructor
  of `Msg` corresponds to one `println!` call site (the exact format strings
  are recorded in comments).
* Rust panics (`unwrap` on `None`/`Err`, overflow) are modelled by the
  `panic` constructor of `PRes`, by `LexStep.lexPanic`, or by `none` for the
  command executors.
-/

/-- Three-way outcome of a fallible Rust computation: success, a returned
`Err`, or a panic (`unwrap` failure). -/
inductive PRes (ε : Type) (α : Type) where
  | ok (a : α)
  | err (e : ε)
  | panic
  deriving DecidableEq, Repr

/-- `commands::CommandType` from `src/commands/mod.rs`. -/
inductive CommandType where
  | cd
  | ls
  | touch
  | mkdir
  | rm
  | rmdir
  deriving DecidableEq, Repr

/-- `lexer::Token` from `src/lexer.rs`.  `unexpectedToken` is the source's
`Token::UnexpectedToken(char)` (the spec calls it `UnexpectedChar`). -/
inductive Token where
  | command (c : CommandType)
  | word (w : String)
  | previousDir
  | space
  | dot
  | slash
  | and
  | number (n : Nat)
  | unexpectedToken (c : Char)
  deriving DecidableEq, Repr

/-- `Lexer::check_multi_token`: if `pat` is a prefix of the remaining input,
consume it.  The source compares `input[cursor..cursor+len]` with the
pattern after a length guard, which is exactly a prefix test. -/
def checkMulti (pat : List Char) (l : List Char) : Option (List Char) :=
  if pat.isPrefixOf l then some (l.drop pat.length) else none

/-- The fixed multi-character tokens of `Lexer::read_next_token`, in the
source's `if`/`else if` priority order. -/
def multiTable : List (List Char × Token) :=
  [ (['&', '&'], Token.and),
    (['.', '.'], Token.previousDir),
    (['t', 'o', 'u', 'c', 'h'], Token.command CommandType.touch),
    (['c', 'd'], Token.command CommandType.cd),
    (['l', 's'], Token.command CommandType.ls),
    (['m', 'k', 'd', 'i', 'r'], Token.command CommandType.mkdir),
    (['r', 'm', 'd', 'i', 'r'], Token.command CommandType.rmdir),
    (['r', 'm'], Token.command CommandType.rm) ]

/-- Run the `check_multi_token` chain over the table, first hit wins. -/
def firstMulti : List (List Char × Token) → List Char → Option (Token × List Char)
  | [], _ => none
  | (pat, t) :: rest, l =>
    match checkMulti pat l with
    | some r => some (t, r)
    | none => firstMulti rest l

/-- `Lexer::get_in_quotes`: accumulate characters until a closing quote is
consumed or the input ends (unterminated quotes are accepted).  Returns the
accumulated characters and the remaining input. -/
def getInQuotesChars : List Char → (List Char × List Char)
  | [] => ([], [])
  | c :: rest =>
    if c = '"' then ([], rest)
    else
      let p := getInQuotesChars rest
      (c :: p.1, p.2)

/-- Numeric value of an ASCII digit character, as `parse::<usize>` sees it. -/
def digitVal (c : Char) : Nat := c.toNat - 48

/-- Value of a digit string, as computed by `parse::<usize>` (before the
overflow check). -/
def digitsValue (l : List Char) : Nat :=
  l.foldl (fun a c => 10 * a + digitVal c) 0

/-- `usize::MAX + 1` on the 64-bit targets the program is built for:
`parse::<usize>()` fails (and the source's `unwrap` panics) exactly when the
digit run's value reaches this bound. -/
def usizeBound : Nat := 2 ^ 64

/-- Characters that terminate a bare word (`Lexer::next_token_index`). -/
def notStructural (c : Char) : Bool :=
  !(c = '.' || c = '/' || c = '&' || c = ' ')

/-- One step of the lexer: end of input, a panic, or one token plus the rest
of the input. -/
inductive LexStep where
  | done
  | lexPanic
  | tok (t : Token) (rest : List Char)
  deriving DecidableEq, Repr

/-- `Lexer::read_next_token`, as a function of the input suffix from the
cursor (the source never looks before the cursor).  The branch order is the
source's: multi-character tokens first, then `.`, `/`, space, quote, digit,
alphabetic word, and finally `UnexpectedToken`.  The digit branch panics
(`parse::<usize>().unwrap()`) when the maximal digit run overflows `usize`. -/
def readNextToken (l : List Char) : LexStep :=
  match l with
  | [] => LexStep.done
  | c :: rest =>
    match firstMulti multiTable l with
    | some (t, r) => LexStep.tok t r
    | none =>
      if c = '.' then LexStep.tok Token.dot rest
      else if c = '/' then LexStep.tok Token.slash rest
      else if c = ' ' then LexStep.tok Token.space rest
      else if c = '"' then
        let p := getInQuotesChars rest
        LexStep.tok (Token.word (String.mk p.1)) p.2
      else if c.isDigit then
        let ds := l.takeWhile Char.isDigit
        if digitsValue ds < usizeBound then
          LexStep.tok (Token.number (digitsValue ds)) (l.dropWhile Char.isDigit)
        else LexStep.lexPanic
      else if c.isAlpha then
        LexStep.tok (Token.word (String.mk (l.takeWhile notStructural)))
          (l.dropWhile notStructural)
      else LexStep.tok (Token.unexpectedToken c) rest

/-- The tokenize loop, with explicit fuel.  Each successful step consumes at
least one character (`readNextToken_shorter` below), so fuel equal to the
input length makes the loop equivalent to the source's unbounded
`while let` loop; `none` models a panic. -/
def tokenizeFuel : Nat → List Char → Option (List Token)
  | 0, l =>
    match readNextToken l with
    | LexStep.done => some []
    | _ => none
  | fuel + 1, l =>
    match readNextToken l with
    | LexStep.done => some []
    | LexStep.lexPanic => none
    | LexStep.tok t rest => (tokenizeFuel fuel rest).map (fun ts => t :: ts)

/-- `Lexer::tokenize`. -/
def tokenize (l : List Char) : Option (List Token) :=
  tokenizeFuel l.length l

/-- `parser::SyntaxError`. -/
inductive SyntaxError where
  | commandNotProvided
  | invalidCommand
  | invalidPath
  | unexpectedToken
  | invalidArguments
  | invalidType
  deriving DecidableEq, Repr

/-- `parser::NodePathSegment`. -/
inductive NodePathSegment where
  | root
  | dir (name : String)
  | parent
  | file (name : String)
  deriving DecidableEq, Repr

/-- `parser::Argument`.  (`parser::NodePath` is `Vec<NodePathSegment>`,
written `List NodePathSegment` throughout.) -/
inductive Argument where
  | path (p : List NodePathSegment)
  | number (n : Nat)
  deriving DecidableEq, Repr

/-- `Parser::validate_token_order`: the transition table keyed on the
previously consumed token, as written in `src/parser.rs`. -/
def validateTokenOrder (prev : Option Token) (cur : Token) :
    Except SyntaxError Unit :=
  match prev with
  | some Token.slash =>
    match cur with
    | Token.word _ | Token.and | Token.space => Except.ok ()
    | _ => Except.error SyntaxError.unexpectedToken
  | some Token.previousDir =>
    match cur with
    | Token.slash => Except.ok ()
    | _ => Except.error SyntaxError.unexpectedToken
  | some Token.dot =>
    match cur with
    | Token.word _ => Except.ok ()
    | _ => Except.error SyntaxError.unexpectedToken
  | some (Token.word _) =>
    match cur with
    | Token.and | Token.slash | Token.dot | Token.space => Except.ok ()
    | _ => Except.error SyntaxError.unexpectedToken
  | some (Token.command _) =>
    match cur with
    | Token.space => Except.ok ()
    | _ => Except.error SyntaxError.unexpectedToken
  | some Token.space =>
    match cur with
    | Token.dot => Except.error SyntaxError.unexpectedToken
    | _ => Except.ok ()
  | some Token.and =>
    match cur with
    | Token.command _ | Token.space => Except.ok ()
    | _ => Except.error SyntaxError.unexpectedToken
  | some (Token.number _) =>
    match cur with
    | Token.space => Except.ok ()
    | _ => Except.error SyntaxError.unexpectedToken
  | some (Token.unexpectedToken _) => Except.ok ()
  | none =>
    match cur with
    | Token.command _ => Except.ok ()
    | _ => Except.error SyntaxError.invalidCommand

/-- The loop body of `parser::compile_path`, with the accumulated path made
explicit.  The `Dot` case first requires a preceding segment
(`last_mut().ok_or(InvalidPath)`), then peeks the next token: a following
`Word` reclassifies a trailing `Dir` into a `File` (or pushes a bare
`File`) and stops scanning; anything else is `InvalidPath`. -/
def compilePathGo (path : List NodePathSegment) :
    List Token → Except SyntaxError (List NodePathSegment)
  | [] => Except.ok path
  | Token.word n :: rest => compilePathGo (path ++ [NodePathSegment.dir n]) rest
  | Token.previousDir :: rest => compilePathGo (path ++ [NodePathSegment.parent]) rest
  | Token.dot :: rest =>
    match path.getLast? with
    | none => Except.error SyntaxError.invalidPath
    | some lastSeg =>
      match rest with
      | Token.word ext :: _ =>
        match lastSeg with
        | NodePathSegment.dir filename =>
          Except.ok (path.dropLast ++ [NodePathSegment.file (filename ++ "." ++ ext)])
        | _ => Except.ok (path ++ [NodePathSegment.file ("." ++ ext)])
      | _ => Except.error SyntaxError.invalidPath
  | _ :: rest => compilePathGo path rest

/-- `parser::compile_path`: a leading `Slash` seeds a `Root` segment, then
the token span is scanned. -/
def compilePath (tokens : List Token) : Except SyntaxError (List NodePathSegment) :=
  compilePathGo
    (match tokens.head? with
     | some Token.slash => [NodePathSegment.root]
     | _ => [])
    tokens

/-- `parser::compile_argument`. -/
def compileArgument (tokens : List Token) : Except SyntaxError Argument :=
  match tokens.head? with
  | some (Token.word _) | some Token.slash | some Token.previousDir =>
    (compilePath tokens).map Argument.path
  | some (Token.number n) => Except.ok (Argument.number n)
  | _ => Except.error SyntaxError.unexpectedToken

/-- A built command, with the data each `*Cmd` struct stores after `build`. -/
inductive Cmd where
  | cd (path : List NodePathSegment)
  | ls (path : List NodePathSegment)
  | mkdir (path : List NodePathSegment) (dirName : String)
  | touch (path : List NodePathSegment) (fileName : String) (size : Nat)
  | rm (path : List NodePathSegment) (name : String)
  | rmdir (path : List NodePathSegment) (name : String)
  deriving DecidableEq, Repr

/-- `commands::CommandBuilder`. -/
structure CommandBuilder where
  ctype : CommandType
  arguments : List Argument
  deriving DecidableEq, Repr

/-- `CdCmd::build`: exactly one argument, a path whose last segment is
neither a `File` nor `Root`.  `path.last().unwrap()` panics on an empty
path. -/
def cdBuild (args : List Argument) : PRes SyntaxError Cmd :=
  if args.length ≠ 1 then PRes.err SyntaxError.invalidArguments
  else
    match args.head? with
    | some (Argument.path p) =>
      match p.getLast? with
      | none => PRes.panic
      | some (NodePathSegment.file _) | some NodePathSegment.root =>
        PRes.err SyntaxError.invalidType
      | some _ => PRes.ok (Cmd.cd p)
    | _ => PRes.err SyntaxError.invalidType

/-- `LsCmd::build`: zero or one argument; a given path must not end in a
`File` or `Root` segment. -/
def lsBuild (args : List Argument) : PRes SyntaxError Cmd :=
  if args.length ≠ 1 ∧ args.length ≠ 0 then PRes.err SyntaxError.invalidArguments
  else if args.length = 1 then
    match args.head? with
    | some (Argument.path p) =>
      match p.getLast? with
      | none => PRes.panic
      | some (NodePathSegment.file _) | some NodePathSegment.root =>
        PRes.err SyntaxError.invalidType
      | some _ => PRes.ok (Cmd.ls p)
    | _ => PRes.err SyntaxError.invalidType
  else PRes.ok (Cmd.ls [])

/-- `MkdirCmd::build`: one path argument whose last segment is a `Dir`; the
command stores the path without its last segment, plus the directory name. -/
def mkdirBuild (args : List Argument) : PRes SyntaxError Cmd :=
  if args.length ≠ 1 then PRes.err SyntaxError.invalidArguments
  else
    match args.head? with
    | some (Argument.path p) =>
      match p.getLast? with
      | none => PRes.panic
      | some (NodePathSegment.dir name) => PRes.ok (Cmd.mkdir p.dropLast name)
      | some _ => PRes.err SyntaxError.invalidType
    | _ => PRes.err SyntaxError.invalidType

/-- `TouchCmd::build`: one or two arguments; the first a path ending in a
`File` segment, the optional second a `Number` (size defaults to 1). -/
def touchBuild (args : List Argument) : PRes SyntaxError Cmd :=
  if args.length ≠ 2 ∧ args.length ≠ 1 then PRes.err SyntaxError.invalidArguments
  else
    match args.head? with
    | some (Argument.path p) =>
      match p.getLast? with
      | none => PRes.panic
      | some (NodePathSegment.file name) =>
        match args.get? 1 with
        | some (Argument.number n) => PRes.ok (Cmd.touch p.dropLast name n)
        | some _ => PRes.err SyntaxError.invalidType
        | none => PRes.ok (Cmd.touch p.dropLast name 1)
      | some _ => PRes.err SyntaxError.invalidType
    | _ => PRes.err SyntaxError.invalidType

/-- `RmCmd::build`: one path argument ending in a `File` segment. -/
def rmBuild (args : List Argument) : PRes SyntaxError Cmd :=
  if args.length ≠ 1 then PRes.err SyntaxError.invalidArguments
  else
    match args.head? with
    | some (Argument.path p) =>
      match p.getLast? with
      | none => PRes.panic
      | some (NodePathSegment.file name) => PRes.ok (Cmd.rm p.dropLast name)
      | some _ => PRes.err SyntaxError.invalidType
    | _ => PRes.err SyntaxError.invalidType

/-- `RmdirCmd::build`: one path argument ending in a `Dir` segment. -/
def rmdirBuild (args : List Argument) : PRes SyntaxError Cmd :=
  if args.length ≠ 1 then PRes.err SyntaxError.invalidArguments
  else
    match args.head? with
    | some (Argument.path p) =>
      match p.getLast? with
      | none => PRes.panic
      | some (NodePathSegment.dir name) => PRes.ok (Cmd.rmdir p.dropLast name)
      | some _ => PRes.err SyntaxError.invalidType
    | _ => PRes.err SyntaxError.invalidType

/-- `CommandBuilder::build`: dispatch to the per-verb builder. -/
def buildCmd (b : CommandBuilder) : PRes SyntaxError Cmd :=
  match b.ctype with
  | CommandType.cd => cdBuild b.arguments
  | CommandType.ls => lsBuild b.arguments
  | CommandType.touch => touchBuild b.arguments
  | CommandType.mkdir => mkdirBuild b.arguments
  | CommandType.rm => rmBuild b.arguments
  | CommandType.rmdir => rmdirBuild b.arguments

/-- Append an argument to the open builder, if any
(`self.current_command.as_mut().map(...)`: with no open builder the
argument is silently dropped). -/
def addArgTo (cur : Option CommandBuilder) (a : Argument) : Option CommandBuilder :=
  cur.map (fun b => { b with arguments := b.arguments ++ [a] })

/-- The token span `self.tokens[lo..hi]`. -/
def tokenSlice (tokens : List Token) (lo hi : Nat) : List Token :=
  (tokens.drop lo).take (hi - lo)

/-- The per-token action of `Parser::generate_commands`' loop: a command
keyword opens a fresh builder; `&&` builds and emits the open command;
`Space` closes an open argument span `[a, cursor)`, compiles it and adds
it to the open builder (silently dropped when none is open);
`UnexpectedToken` is logged and ignored; any other token opens an argument
span at the cursor if none is open. -/
def genStep (tokens : List Token) (t : Token) (cursor : Nat)
    (curCmd : Option CommandBuilder) (argStart : Option Nat) (acc : List Cmd) :
    PRes SyntaxError (Option CommandBuilder × Option Nat × List Cmd) :=
  match t with
  | Token.command ct => PRes.ok (some { ctype := ct, arguments := [] }, argStart, acc)
  | Token.and =>
    match curCmd with
    | some b =>
      match buildCmd b with
      | PRes.ok c => PRes.ok (none, argStart, acc ++ [c])
      | PRes.err e => PRes.err e
      | PRes.panic => PRes.panic
    | none => PRes.ok (none, argStart, acc)
  | Token.space =>
    match argStart with
    | some a =>
      match compileArgument (tokenSlice tokens a cursor) with
      | Except.error e => PRes.err e
      | Except.ok arg => PRes.ok (addArgTo curCmd arg, none, acc)
    | none => PRes.ok (curCmd, none, acc)
  | Token.unexpectedToken _ => PRes.ok (curCmd, argStart, acc)
  | _ =>
    match argStart with
    | none => PRes.ok (curCmd, some cursor, acc)
    | some a => PRes.ok (curCmd, some a, acc)

/-- The end-of-input block of `Parser::generate_commands`' loop, run after
the action of the final token: compile the pending argument span
`tokens[a..]` if one is open, then build and emit the open command. -/
def genEnd (tokens : List Token) (curCmd : Option CommandBuilder)
    (argStart : Option Nat) (acc : List Cmd) : PRes SyntaxError (List Cmd) :=
  match
    (match argStart with
     | some a =>
       match compileArgument (tokens.drop a) with
       | Except.error e => PRes.err e
       | Except.ok arg => PRes.ok (addArgTo curCmd arg)
     | none => PRes.ok curCmd : PRes SyntaxError (Option CommandBuilder))
  with
  | PRes.err e => PRes.err e
  | PRes.panic => PRes.panic
  | PRes.ok (some b) =>
    match buildCmd b with
    | PRes.ok c => PRes.ok (acc ++ [c])
    | PRes.err e => PRes.err e
    | PRes.panic => PRes.panic
  | PRes.ok none => PRes.ok acc

/-- The loop of `Parser::generate_commands`.  `tokens` is the full token
vector (used for slicing argument spans); the first list argument is the
remaining tokens from `cursor`.  Each iteration validates the token order,
runs the per-token action, and — when the cursor sits on the last token —
the end-of-input block. -/
def genGo (tokens : List Token) :
    List Token → Nat → Option Token → Option CommandBuilder → Option Nat →
    List Cmd → PRes SyntaxError (List Cmd)
  | [], _, _, _, _, acc => PRes.ok acc
  | t :: rest, cursor, prev, curCmd, argStart, acc =>
    match validateTokenOrder prev t with
    | Except.error e => PRes.err e
    | Except.ok _ =>
      match genStep tokens t cursor curCmd argStart acc with
      | PRes.err e => PRes.err e
      | PRes.panic => PRes.panic
      | PRes.ok (curCmd1, argStart1, acc1) =>
        if cursor + 1 = tokens.length then
          match genEnd tokens curCmd1 argStart1 acc1 with
          | PRes.err e => PRes.err e
          | PRes.panic => PRes.panic
          | PRes.ok acc2 => genGo tokens rest (cursor + 1) (some t) none none acc2
        else genGo tokens rest (cursor + 1) (some t) curCmd1 argStart1 acc1

/-- `Parser::generate_commands`: fails with `CommandNotProvided` on an empty
token vector, otherwise runs the per-token loop from a fresh parser state. -/
def generateCommands (tokens : List Token) : PRes SyntaxError (List Cmd) :=
  if tokens.length < 1 then PRes.err SyntaxError.commandNotProvided
  else genGo tokens tokens 0 none none none []

/-- `tree::InvalidFolder`. -/
inductive InvalidFolder where
  | invalidFolder
  deriving DecidableEq, Repr

/-- `tree::NodeTypeError`. -/
inductive NodeTypeError where
  | nodeTypeError
  deriving DecidableEq, Repr

/-- `tree::Node`: one arena record per `Rc<Node>`.  `par` models the
`Weak<Node>` parent back-reference (`none` is a dangling `Weak::new()`);
children and parents are arena indices. -/
inductive NodeData where
  | root (children : List Nat)
  | folder (name : String) (size : Nat) (par : Option Nat) (children : List Nat)
      (depth : Nat)
  | file (name : String) (size : Nat) (par : Option Nat) (depth : Nat)
  deriving DecidableEq, Repr

/-- The node arena together with `tree::Context`'s two handles. -/
structure FsState where
  nodes : List NodeData
  rootId : Nat
  cwd : Nat
  deriving DecidableEq, Repr

/-- Dereference an arena index (an `Rc` handle in the source). -/
def getN (s : FsState) (i : Nat) : Option NodeData :=
  s.nodes.get? i

/-- Replace the record at an arena index. -/
def setN (s : FsState) (i : Nat) (d : NodeData) : FsState :=
  { s with nodes := s.nodes.set i d }

/-- `Node::children`: `Some` for Root/Folder, `None` for File. -/
def NodeData.childrenOf : NodeData → Option (List Nat)
  | NodeData.root ch => some ch
  | NodeData.folder _ _ _ ch _ => some ch
  | NodeData.file _ _ _ _ => none

/-- `Node::parent`: `Some` for Folder/File (the stored weak reference),
`None` for Root. -/
def NodeData.parentOf : NodeData → Option (Option Nat)
  | NodeData.root _ => none
  | NodeData.folder _ _ p _ _ => some p
  | NodeData.file _ _ p _ => some p

/-- `Node::name`: `Some` for Folder/File, `None` for Root. -/
def NodeData.nameOf : NodeData → Option String
  | NodeData.root _ => none
  | NodeData.folder n _ _ _ _ => some n
  | NodeData.file n _ _ _ => some n

/-- `Node::size`: `Some` for Folder/File, `None` for Root. -/
def NodeData.sizeOf : NodeData → Option Nat
  | NodeData.root _ => none
  | NodeData.folder _ sz _ _ _ => some sz
  | NodeData.file _ sz _ _ => some sz

/-- `Node::depth`: the depth field, with Root fixed at 0. -/
def NodeData.depthOf : NodeData → Nat
  | NodeData.root _ => 0
  | NodeData.folder _ _ _ _ d => d
  | NodeData.file _ _ _ d => d

/-- Whether `Node::depth_ref` (and `Node::parent`) exists: Folder/File. -/
def NodeData.isFile : NodeData → Bool
  | NodeData.file _ _ _ _ => true
  | _ => false

/-- Update the parent field of a Folder/File record (Root unchanged; the
callers only reach this when the field exists). -/
def NodeData.withParent : NodeData → Option Nat → NodeData
  | NodeData.root ch, _ => NodeData.root ch
  | NodeData.folder n sz _ ch d, p => NodeData.folder n sz p ch d
  | NodeData.file n sz _ d, p => NodeData.file n sz p d

/-- Update the depth field of a Folder/File record. -/
def NodeData.withDepth : NodeData → Nat → NodeData
  | NodeData.root ch, _ => NodeData.root ch
  | NodeData.folder n sz p ch _, d => NodeData.folder n sz p ch d
  | NodeData.file n sz p _, d => NodeData.file n sz p d

/-- Replace the child list of a Root/Folder record. -/
def NodeData.withChildren : NodeData → List Nat → NodeData
  | NodeData.root _, ch => NodeData.root ch
  | NodeData.folder n sz p _ d, ch => NodeData.folder n sz p ch d
  | NodeData.file n sz p d, _ => NodeData.file n sz p d

/-- Add to the size field of a Folder record. -/
def NodeData.addSize : NodeData → Nat → NodeData
  | NodeData.folder n sz p ch d, k => NodeData.folder n (sz + k) p ch d
  | d, _ => d

/-- Name of the node at an arena index (`node.name()` after dereferencing
the handle): `none` when the index is dead or the node is Root. -/
def nameN (s : FsState) (i : Nat) : Option String :=
  match getN s i with
  | none => none
  | some d => d.nameOf

/-- The `find` inside `Context::dir_to_child`: scan the child list in order
for the first child whose name equals `dirName`.  Dereferencing a dead
handle or asking Root for a name is `name().unwrap()` — a panic. -/
def findChildByName (s : FsState) : List Nat → String → PRes Unit Nat
  | [], _ => PRes.err ()
  | c :: rest, dirName =>
    match nameN s c with
    | none => PRes.panic
    | some m => if m = dirName then PRes.ok c else findChildByName s rest dirName

/-- `Context::dir_to_child`: `current_dir.children().unwrap()` panics when
the current node is a File; otherwise the first name match among the
immediate children, else `InvalidFolder`. -/
def dirToChild (s : FsState) (cur : Nat) (dirName : String) :
    PRes InvalidFolder Nat :=
  match getN s cur with
  | none => PRes.panic
  | some d =>
    match d.childrenOf with
    | none => PRes.panic
    | some ch =>
      match findChildByName s ch dirName with
      | PRes.ok c => PRes.ok c
      | PRes.err _ => PRes.err InvalidFolder.invalidFolder
      | PRes.panic => PRes.panic

/-- `Context::dir_to_parent`: `dir.parent().unwrap()` panics at Root, and
`Weak::upgrade(..).unwrap()` panics on a dangling parent reference. -/
def dirToParent (s : FsState) (cur : Nat) : PRes InvalidFolder Nat :=
  match getN s cur with
  | none => PRes.panic
  | some d =>
    match d.parentOf with
    | none => PRes.panic
    | some none => PRes.panic
    | some (some p) => PRes.ok p

/-- One segment of `Context::node_from_path`: `Root` jumps to the tree
root, `Dir` descends to a child, `Parent` ascends, and the remaining
variant (`File`) is the `_ => return Err(InvalidFolder)` arm. -/
def resolveStep (s : FsState) (cur : Nat) : NodePathSegment → PRes InvalidFolder Nat
  | NodePathSegment.root => PRes.ok s.rootId
  | NodePathSegment.dir n => dirToChild s cur n
  | NodePathSegment.parent => dirToParent s cur
  | NodePathSegment.file _ => PRes.err InvalidFolder.invalidFolder

/-- The segment loop of `Context::node_from_path`, starting from `cur`. -/
def resolvePath (s : FsState) (cur : Nat) :
    List NodePathSegment → PRes InvalidFolder Nat
  | [] => PRes.ok cur
  | seg :: rest =>
    match resolveStep s cur seg with
    | PRes.ok c => resolvePath s c rest
    | PRes.err e => PRes.err e
    | PRes.panic => PRes.panic

/-- `Context::node_from_path`: resolution starts at the context's current
directory. -/
def nodeFromPath (s : FsState) (p : List NodePathSegment) : PRes InvalidFolder Nat :=
  resolvePath s s.cwd p

/-- `Node::add`.  The order of operations is the source's: match on the
parent (File fails immediately); inside the closure, `child.parent()` and
`child.depth_ref()` are `ok_or(NodeTypeError)?` (a Root child fails), the
child's parent and depth are written, the child is pushed onto the parent's
child list, and — only when the parent is a Folder — the parent's size is
incremented by `child.size().unwrap()`. -/
def addNode (s : FsState) (selfId childId : Nat) : PRes NodeTypeError FsState :=
  match getN s selfId with
  | none => PRes.panic
  | some selfData =>
    match selfData with
    | NodeData.file _ _ _ _ => PRes.err NodeTypeError.nodeTypeError
    | _ =>
      match getN s childId with
      | none => PRes.panic
      | some childData =>
        match childData.parentOf with
        | none => PRes.err NodeTypeError.nodeTypeError
        | some _ =>
          let s1 := setN s childId (childData.withParent (some selfId))
          match getN s1 selfId with
          | none => PRes.panic
          | some selfData1 =>
            let s2 := setN s1 childId
              ((childData.withParent (some selfId)).withDepth (selfData1.depthOf + 1))
            match getN s2 selfId with
            | none => PRes.panic
            | some selfData2 =>
              match selfData2.childrenOf with
              | none => PRes.panic
              | some ch =>
                let s3 := setN s2 selfId (selfData2.withChildren (ch ++ [childId]))
                match selfData with
                | NodeData.folder _ _ _ _ _ =>
                  match getN s3 childId with
                  | none => PRes.panic
                  | some childData3 =>
                    match childData3.sizeOf with
                    | none => PRes.panic
                    | some csz =>
                      match getN s3 selfId with
                      | none => PRes.panic
                      | some selfData3 =>
                        PRes.ok (setN s3 selfId (selfData3.addSize csz))
                | _ => PRes.ok s3

/-- `swap_remove` on `Vec`: replace the element at `i` with the last
element and shrink by one. -/
def swapRemove (l : List Nat) (i : Nat) : List Nat :=
  match l.getLast? with
  | none => l
  | some last => (l.set i last).dropLast

/-- The `get_index` closure of `Node::remove`: the index of the first child
whose name equals `nodeName`.  A dead handle or a Root child panics
(`name().unwrap()`); no match is the formatted error. -/
def findRemoveIdx (s : FsState) : List Nat → String → PRes Unit Nat
  | [], _ => PRes.err ()
  | c :: rest, nodeName =>
    match nameN s c with
    | none => PRes.panic
    | some m =>
      if m = nodeName then PRes.ok 0
      else
        match findRemoveIdx s rest nodeName with
        | PRes.ok i => PRes.ok (i + 1)
        | PRes.err e => PRes.err e
        | PRes.panic => PRes.panic

/-- Output events, one constructor per `println!` call site. -/
inductive Msg where
  /-- parser: `"Unexpected Token '{}'"`. -/
  | unexpectedTokenChar (c : Char)
  /-- cd: `"No parent folder"`. -/
  | noParentFolder
  /-- ls: `"{}{} {}KB"` — name, `/` suffix for folders, size. -/
  | lsEntry (name : String) (isFolder : Bool) (size : Nat)
  /-- mkdir: `"The dir name cannot be over 12 characters"`. -/
  | dirNameTooLong
  /-- touch: `"The file name cannot contain spaces"`. -/
  | fileNameSpaces
  /-- touch: `"The file name cannot be over 12 characters"`. -/
  | fileNameTooLong
  /-- touch: `"The file size can only be up to 4GB"`. -/
  | fileTooLarge
  /-- touch: `"Cannot create a file with 0 size"`. -/
  | fileEmpty
  /-- touch: `"File extension must be 3 characters because Doc said so."`. -/
  | badExtension
  /-- rm/rmdir, from `Node::remove`: `"Could not locate item: {}"`. -/
  | couldNotLocate (nm : String)
  /-- rm/rmdir: `"Invalid path"`. -/
  | invalidPathMsg
  /-- rmdir: `"Cannot remove directory as it is less deep than the current
  directory"`. -/
  | depthOrdering
  /-- main, `handle_err`: the per-`SyntaxError` message. -/
  | syntaxErr (e : SyntaxError)
  deriving DecidableEq, Repr

/-- `Node::remove`: find the first child by name (`get_index`), then
`swap_remove` it from the child list.  `children().unwrap()` panics when
the node is a File or the handle is dead. -/
def removeNode (s : FsState) (selfId : Nat) (nodeName : String) :
    PRes Msg FsState :=
  match getN s selfId with
  | none => PRes.panic
  | some d =>
    match d.childrenOf with
    | none => PRes.panic
    | some ch =>
      match findRemoveIdx s ch nodeName with
      | PRes.panic => PRes.panic
      | PRes.err _ => PRes.err (Msg.couldNotLocate nodeName)
      | PRes.ok i =>
        match getN s selfId with
        | none => PRes.panic
        | some d2 => PRes.ok (setN s selfId (d2.withChildren (swapRemove ch i)))

/-- `CdCmd::execute`: resolve; on failure do nothing (and print nothing);
on success refuse Root with a message, otherwise replace the current
directory. -/
def cdExec (s : FsState) (path : List NodePathSegment) :
    Option (FsState × List Msg) :=
  match nodeFromPath s path with
  | PRes.panic => none
  | PRes.err _ => some (s, [])
  | PRes.ok t =>
    match getN s t with
    | none => none
    | some (NodeData.root _) => some (s, [Msg.noParentFolder])
    | some _ => some ({ s with cwd := t }, [])

/-- One line of `LsCmd::execute`'s printing loop, for the child at index
`c`: `node.name().unwrap()` and `node.size().unwrap()` panic on Root. -/
def lsEntryOf (s : FsState) (c : Nat) : Option Msg :=
  match getN s c with
  | some (NodeData.folder n sz _ _ _) => some (Msg.lsEntry n true sz)
  | some (NodeData.file n sz _ _) => some (Msg.lsEntry n false sz)
  | _ => none

/-- The printing loop of `LsCmd::execute` over a child list. -/
def lsEntries (s : FsState) : List Nat → Option (List Msg)
  | [] => some []
  | c :: rest =>
    match lsEntryOf s c with
    | none => none
    | some m => (lsEntries s rest).map (fun ms => m :: ms)

/-- `LsCmd::execute`: resolve; on failure do nothing silently; on success
print one line per child (`children().unwrap()` panics on a File). -/
def lsExec (s : FsState) (path : List NodePathSegment) :
    Option (FsState × List Msg) :=
  match nodeFromPath s path with
  | PRes.panic => none
  | PRes.err _ => some (s, [])
  | PRes.ok t =>
    match getN s t with
    | none => none
    | some d =>
      match d.childrenOf with
      | none => none
      | some ch => (lsEntries s ch).map (fun ms => (s, ms))

/-- `MkdirCmd::execute`: refuse names over 12 characters; resolve the
parent path (failure is silent); allocate a fresh Folder
(`Node::new_folder`: size 0, dangling parent, depth 0) and `add` it —
`add(..).unwrap()` panics if `add` fails. -/
def mkdirExec (s : FsState) (path : List NodePathSegment) (dirName : String) :
    Option (FsState × List Msg) :=
  if dirName.length > 12 then some (s, [Msg.dirNameTooLong])
  else
    match nodeFromPath s path with
    | PRes.panic => none
    | PRes.err _ => some (s, [])
    | PRes.ok t =>
      let newId := s.nodes.length
      let s1 : FsState :=
        { s with nodes := s.nodes ++ [NodeData.folder dirName 0 none [] 0] }
      match addNode s1 t newId with
      | PRes.ok s2 => some (s2, [])
      | _ => none

/-- `str::split` on `"."` over the character sequence: the list of
dot-separated groups (an empty input yields one empty group, like Rust's
`split`). -/
def splitDot : List Char → List (List Char)
  | [] => [[]]
  | c :: rest =>
    let r := splitDot rest
    if c = '.' then [] :: r
    else
      match r with
      | [] => [[c]]
      | g :: gs => (c :: g) :: gs

/-- The file-name policy checks of `TouchCmd::execute`, in source order;
`some msg` is the first failing check's message.  `contains(" ")` on a
one-character needle is a character search, and
`split(".").last().unwrap()` is the last dot-separated group. -/
def touchPolicy (fileName : String) (size : Nat) : Option Msg :=
  if fileName.data.contains ' ' then some Msg.fileNameSpaces
  else if fileName.length > 12 then some Msg.fileNameTooLong
  else if size ≥ 4194304 then some Msg.fileTooLarge
  else if size = 0 then some Msg.fileEmpty
  else if ((splitDot fileName.data).getLastD []).length ≠ 3 then some Msg.badExtension
  else none

/-- `TouchCmd::execute`: policy checks first, then resolve the parent path
(failure is silent), then allocate a fresh File (`Node::new_file`) and
`add(..).unwrap()` it. -/
def touchExec (s : FsState) (path : List NodePathSegment) (fileName : String)
    (size : Nat) : Option (FsState × List Msg) :=
  match touchPolicy fileName size with
  | some m => some (s, [m])
  | none =>
    match nodeFromPath s path with
    | PRes.panic => none
    | PRes.err _ => some (s, [])
    | PRes.ok t =>
      let newId := s.nodes.length
      let s1 : FsState :=
        { s with nodes := s.nodes ++ [NodeData.file fileName size none 0] }
      match addNode s1 t newId with
      | PRes.ok s2 => some (s2, [])
      | _ => none

/-- `RmCmd::execute`: resolve the parent path, printing `"Invalid path"` on
failure; then `Node::remove` by name, printing its error if any. -/
def rmExec (s : FsState) (path : List NodePathSegment) (name : String) :
    Option (FsState × List Msg) :=
  match nodeFromPath s path with
  | PRes.panic => none
  | PRes.err _ => some (s, [Msg.invalidPathMsg])
  | PRes.ok t =>
    match removeNode s t name with
    | PRes.ok s1 => some (s1, [])
    | PRes.err m => some (s, [m])
    | PRes.panic => none

/-- The depth of the node at an arena index (`node.depth()`); `none` models
dereferencing a dead handle. -/
def depthN (s : FsState) (i : Nat) : Option Nat :=
  (getN s i).map NodeData.depthOf

/-- `RmdirCmd::execute`: resolve the parent path, printing `"Invalid
path"` on failure; refuse with the depth-ordering message when the resolved
target is strictly less deep than the current directory; otherwise
`Node::remove` by name. -/
def rmdirExec (s : FsState) (path : List NodePathSegment) (name : String) :
    Option (FsState × List Msg) :=
  match nodeFromPath s path with
  | PRes.panic => none
  | PRes.err _ => some (s, [Msg.invalidPathMsg])
  | PRes.ok t =>
    match depthN s t, depthN s s.cwd with
    | some dt, some dc =>
      if dt < dc then some (s, [Msg.depthOrdering])
      else
        match removeNode s t name with
        | PRes.ok s1 => some (s1, [])
        | PRes.err m => some (s, [m])
        | PRes.panic => none
    | _, _ => none

/-- `Command::execute` dispatch. -/
def execCmd (s : FsState) : Cmd → Option (FsState × List Msg)
  | Cmd.cd p => cdExec s p
  | Cmd.ls p => lsExec s p
  | Cmd.mkdir p n => mkdirExec s p n
  | Cmd.touch p n sz => touchExec s p n sz
  | Cmd.rm p n => rmExec s p n
  | Cmd.rmdir p n => rmdirExec s p n

/-- The execution loop of `main`: run the built commands in list order,
threading the state and concatenating output; a panic aborts. -/
def runCmds (s : FsState) : List Cmd → Option (FsState × List Msg)
  | [] => some (s, [])
  | c :: rest =>
    match execCmd s c with
    | none => none
    | some (s1, out) =>
      match runCmds s1 rest with
      | none => none
      | some (s2, out2) => some (s2, out ++ out2)

/-- One iteration of `main`'s loop on an already-tokenized line: parse,
then either print the `SyntaxError` message (`handle_err`) and leave the
state untouched, or execute every built command in order. -/
def processTokens (s : FsState) (tokens : List Token) :
    Option (FsState × List Msg) :=
  match generateCommands tokens with
  | PRes.err e => some (s, [Msg.syntaxErr e])
  | PRes.panic => none
  | PRes.ok cmds => runCmds s cmds

/-- Size of the node at an arena index (`node.size()`). -/
def sizeN (s : FsState) (i : Nat) : Option Nat :=
  (getN s i).bind NodeData.sizeOf

/-- Child index list of the node at an arena index (empty for a File or a
dead handle; used only to phrase theorem conclusions). -/
def childIds (s : FsState) (i : Nat) : List Nat :=
  ((getN s i).bind NodeData.childrenOf).getD []

/-- The names of a node's children, in child-list order. -/
def childNames (s : FsState) (i : Nat) : List (Option String) :=
  (childIds s i).map (nameN s)

/-- The transition table exactly as the claim states it: which token may
follow the previously consumed one.  This is the claim's wording, to be
compared with `validateTokenOrder` (which is translated from the source). -/
def claimAllowedNext (prev : Option Token) (cur : Token) : Bool :=
  match prev with
  | none =>
    match cur with
    | Token.command _ => true
    | _ => false
  | some (Token.command _) =>
    match cur with
    | Token.space => true
    | _ => false
  | some Token.space =>
    match cur with
    | Token.dot => false
    | _ => true
  | some (Token.word _) =>
    match cur with
    | Token.and | Token.slash | Token.dot | Token.space => true
    | _ => false
  | some Token.slash =>
    match cur with
    | Token.word _ | Token.and | Token.space => true
    | _ => false
  | some Token.dot =>
    match cur with
    | Token.word _ => true
    | _ => false
  | some Token.previousDir =>
    match cur with
    | Token.slash => true
    | _ => false
  | some (Token.number _) =>
    match cur with
    | Token.space => true
    | _ => false
  | some Token.and =>
    match cur with
    | Token.command _ | Token.space => true
    | _ => false
  | some (Token.unexpectedToken _) => true

/-- The error the claim assigns to a rejected transition: `InvalidCommand`
with no previous token, `UnexpectedToken` otherwise. -/
def claimOrderErr (prev : Option Token) : SyntaxError :=
  match prev with
  | none => SyntaxError.invalidCommand
  | some _ => SyntaxError.unexpectedToken

/-- The path segment a single non-`Dot` token contributes during path
compilation (the claim's wording): `Word` becomes `Dir`, `PreviousDir`
becomes `Parent`, everything else contributes nothing. -/
def pathSegOf : Token → Option NodePathSegment
  | Token.word n => some (NodePathSegment.dir n)
  | Token.previousDir => some NodePathSegment.parent
  | _ => none

/-- The `Root` segment contributed by a leading `Slash` (the claim's
wording). -/
def leadRoot (tokens : List Token) : List NodePathSegment :=
  match tokens.head? with
  | some Token.slash => [NodePathSegment.root]
  | _ => []

/-- Whether a span's leading token is path-shaped (`Word`, `Slash`,
`PreviousDir`). -/
def pathShapedHead : Option Token → Bool
  | some (Token.word _) => true
  | some Token.slash => true
  | some Token.previousDir => true
  | _ => false

/-- Whether the input contains a run of 20 or more consecutive ASCII
digits.  Any shorter run has value below `10^19 < usize::MAX`, so its
`parse::<usize>()` cannot overflow. -/
def hasLongDigitRun : List Char → Bool
  | [] => false
  | c :: rest =>
    decide (((c :: rest).takeWhile Char.isDigit).length ≥ 20) || hasLongDigitRun rest

/-- Concrete fixture: the skeleton `/home/user1` tree with a `documents`
folder (two files) and an empty `photos` folder; the current directory is
`user1`. -/
def sampleTree : FsState :=
  { nodes :=
      [ NodeData.root [1],
        NodeData.folder "home" 0 (some 0) [2] 1,
        NodeData.folder "user1" 0 (some 1) [3, 4] 2,
        NodeData.folder "documents" 2 (some 2) [5, 6] 3,
        NodeData.folder "photos" 0 (some 2) [] 3,
        NodeData.file "cv.pdf" 1 (some 3) 4,
        NodeData.file "data.dat" 1 (some 3) 4 ],
    rootId := 0, cwd := 2 }

/-- Concrete fixture: a root whose children are a Folder named `x.png` and
a File named `y.abc`; the current directory is the root. -/
def smallTree : FsState :=
  { nodes :=
      [ NodeData.root [1, 2],
        NodeData.folder "x.png" 0 (some 0) [] 1,
        NodeData.file "y.abc" 1 (some 0) 1 ],
    rootId := 0, cwd := 0 }

/-- Concrete fixture: a bare root with no children, current directory the
root itself. -/
def rootOnly : FsState :=
  { nodes := [NodeData.root []], rootId := 0, cwd := 0 }

/-- Concrete fixture: the current directory handle points at a File. -/
def loneFile : FsState :=
  { nodes := [NodeData.root [1], NodeData.file "f.txt" 1 (some 0) 1],
    rootId := 0, cwd := 1 }

section Lemmas

/-- Scanning a dot-free span extends the accumulated path by the segments
the span's tokens contribute. -/
theorem compilePathGo_append (pre : List Token) (h : Token.dot ∉ pre) :
    ∀ (acc : List NodePathSegment) (rest : List Token),
      compilePathGo acc (pre ++ rest) =
        compilePathGo (acc ++ pre.filterMap pathSegOf) rest := by
  induction pre with
  | nil => intro acc rest; simp [List.filterMap]
  | cons t pre' ih =>
    intro acc rest
    have hd : t ≠ Token.dot := fun he => h (he ▸ List.mem_cons_self t pre')
    have h' : Token.dot ∉ pre' := fun hm => h (List.mem_cons_of_mem t hm)
    cases t with
    | word n => simpa [compilePathGo, pathSegOf] using ih h' (acc ++ [NodePathSegment.dir n]) rest
    | previousDir => simpa [compilePathGo, pathSegOf] using ih h' (acc ++ [NodePathSegment.parent]) rest
    | dot => exact absurd rfl hd
    | command c => simpa [compilePathGo, pathSegOf] using ih h' acc rest
    | space => simpa [compilePathGo, pathSegOf] using ih h' acc rest
    | slash => simpa [compilePathGo, pathSegOf] using ih h' acc rest
    | and => simpa [compilePathGo, pathSegOf] using ih h' acc rest
    | number n => simpa [compilePathGo, pathSegOf] using ih h' acc rest
    | unexpectedToken c => simpa [compilePathGo, pathSegOf] using ih h' acc rest

/-- A path-shaped leading token guarantees at least one compiled segment. -/
theorem leadSegs_ne_nil (pre : List Token) (h : pathShapedHead pre.head? = true) :
    leadRoot pre ++ pre.filterMap pathSegOf ≠ [] := by
  cases pre with
  | nil => simp [pathShapedHead] at h
  | cons t pre' =>
    cases t <;> simp_all [pathShapedHead, leadRoot, pathSegOf, List.filterMap]

/-- `compilePath` is the scan seeded by the leading-slash segment. -/
theorem compilePath_eq (ts : List Token) :
    compilePath ts = compilePathGo (leadRoot ts) ts := rfl

end Lemmas

/-- C6: the parser's token-order check is exactly the claimed transition
table, keyed on the immediately preceding token: a disallowed pair fails
with `UnexpectedToken` (`InvalidCommand` when there is no previous token),
and the check runs before the first token is consumed, so a rejected first
token fails the entire parse. -/
theorem c6_transition_table :
    (∀ (prev : Option Token) (cur : Token),
      validateTokenOrder prev cur =
        (if claimAllowedNext prev cur then Except.ok ()
         else Except.error (claimOrderErr prev))) ∧
    (∀ (t : Token) (ts : List Token) (e : SyntaxError),
      validateTokenOrder none t = Except.error e →
      generateCommands (t :: ts) = PRes.err e) := by
  constructor
  · intro prev cur
    cases prev with
    | none => cases cur <;> rfl
    | some t => cases t <;> cases cur <;> rfl
  · intro t ts e h
    simp [generateCommands, genGo, h]

/-- Witness for `c6_transition_table`: a line whose first token is not a
command keyword is rejected whole with `InvalidCommand`. -/
theorem c6_transition_table_witness :
    validateTokenOrder none Token.space = Except.error SyntaxError.invalidCommand ∧
    generateCommands [Token.space, Token.and] = PRes.err SyntaxError.invalidCommand :=
  ⟨rfl, c6_transition_table.2 Token.space [Token.and] SyntaxError.invalidCommand rfl⟩

/-- C7: argument compilation over a span with a path-shaped leading token
(`Word`/`Slash`/`PreviousDir`) builds a `NodePath`: a leading `Slash`
contributes `Root`, each `Word` a `Dir`, each `PreviousDir` a `Parent`; a
`Dot` followed by a `Word` reclassifies a trailing `Dir` into a
`File("name.ext")` (otherwise pushes a bare `File(".ext")`) and stops
scanning; a `Dot` not followed by a `Word` is `InvalidPath`; a single
`Number` span compiles to a `Number` argument; any other leading token is
`UnexpectedToken`. -/
theorem c7_compile_argument :
    (∀ ts : List Token, pathShapedHead ts.head? = true → Token.dot ∉ ts →
      compileArgument ts =
        Except.ok (Argument.path (leadRoot ts ++ ts.filterMap pathSegOf))) ∧
    (∀ (pre : List Token) (ext : String) (post : List Token),
      pathShapedHead pre.head? = true → Token.dot ∉ pre →
      compileArgument (pre ++ Token.dot :: Token.word ext :: post) =
        Except.ok (Argument.path
          (match (leadRoot pre ++ pre.filterMap pathSegOf).getLast? with
           | some (NodePathSegment.dir fn) =>
             (leadRoot pre ++ pre.filterMap pathSegOf).dropLast ++
               [NodePathSegment.file (fn ++ "." ++ ext)]
           | _ =>
             leadRoot pre ++ pre.filterMap pathSegOf ++
               [NodePathSegment.file ("." ++ ext)]))) ∧
    (∀ (pre post : List Token),
      pathShapedHead pre.head? = true → Token.dot ∉ pre →
      (∀ w, post.head? ≠ some (Token.word w)) →
      compileArgument (pre ++ Token.dot :: post) =
        Except.error SyntaxError.invalidPath) ∧
    (∀ n, compileArgument [Token.number n] = Except.ok (Argument.number n)) ∧
    (∀ ts : List Token, pathShapedHead ts.head? = false →
      (∀ n, ts.head? ≠ some (Token.number n)) →
      compileArgument ts = Except.error SyntaxError.unexpectedToken) := by
  have harg : ∀ ts : List Token, pathShapedHead ts.head? = true →
      compileArgument ts = (compilePath ts).map Argument.path := by
    intro ts h
    cases ts with
    | nil => simp [pathShapedHead] at h
    | cons t ts' => cases t <;> simp_all [pathShapedHead, compileArgument]
  have hhead : ∀ (pre rest : List Token), pre ≠ [] →
      (pre ++ rest).head? = pre.head? := by
    intro pre rest hne
    cases pre with
    | nil => exact absurd rfl hne
    | cons t pre' => rfl
  have hne : ∀ pre : List Token, pathShapedHead pre.head? = true → pre ≠ [] := by
    intro pre h he
    subst he
    simp [pathShapedHead] at h
  refine ⟨?_, ?_, ?_, ?_, ?_⟩
  · intro ts hshape hdot
    rw [harg ts hshape, compilePath_eq]
    have := compilePathGo_append ts hdot (leadRoot ts) []
    simp only [List.append_nil] at this
    rw [this]
    rfl
  · intro pre ext post hshape hdot
    have hpre := hne pre hshape
    have hh := hhead pre (Token.dot :: Token.word ext :: post) hpre
    have hshape' : pathShapedHead (pre ++ Token.dot :: Token.word ext :: post).head? = true := by
      rw [hh]; exact hshape
    rw [harg _ hshape', compilePath_eq]
    have hlr : leadRoot (pre ++ Token.dot :: Token.word ext :: post) = leadRoot pre := by
      unfold leadRoot; rw [hh]
    rw [hlr, compilePathGo_append pre hdot]
    obtain ⟨lastSeg, hg⟩ :
        ∃ x, (leadRoot pre ++ pre.filterMap pathSegOf).getLast? = some x := by
      cases hx : (leadRoot pre ++ pre.filterMap pathSegOf).getLast? with
      | none => exact absurd (List.getLast?_eq_none_iff.mp hx) (leadSegs_ne_nil pre hshape)
      | some x => exact ⟨x, rfl⟩
    simp only [compilePathGo, hg]
    cases lastSeg <;> rfl
  · intro pre post hshape hdot hpost
    have hpre := hne pre hshape
    have hh := hhead pre (Token.dot :: post) hpre
    have hshape' : pathShapedHead (pre ++ Token.dot :: post).head? = true := by
      rw [hh]; exact hshape
    rw [harg _ hshape', compilePath_eq]
    have hlr : leadRoot (pre ++ Token.dot :: post) = leadRoot pre := by
      unfold leadRoot; rw [hh]
    rw [hlr, compilePathGo_append pre hdot]
    obtain ⟨lastSeg, hg⟩ :
        ∃ x, (leadRoot pre ++ pre.filterMap pathSegOf).getLast? = some x := by
      cases hx : (leadRoot pre ++ pre.filterMap pathSegOf).getLast? with
      | none => exact absurd (List.getLast?_eq_none_iff.mp hx) (leadSegs_ne_nil pre hshape)
      | some x => exact ⟨x, rfl⟩
    simp only [compilePathGo, hg]
    cases post with
    | nil => rfl
    | cons t post' =>
      cases t with
      | word w => exact absurd rfl (hpost w)
      | _ => rfl
  · intro n; rfl
  · intro ts hshape hnum
    cases ts with
    | nil => rfl
    | cons t ts' =>
      cases t with
      | number n => exact absurd rfl (hnum n)
      | _ => simp_all [pathShapedHead, compileArgument]

/-- Witness for `c7_compile_argument`: `a/b.png` compiles to
`[Dir a, File b.png]` with the trailing `Dir` reclassified by the dot. -/
theorem c7_compile_argument_witness :
    compileArgument
        [Token.word "a", Token.slash, Token.word "b", Token.dot, Token.word "png"] =
      Except.ok (Argument.path
        [NodePathSegment.dir "a", NodePathSegment.file "b.png"]) := by
  have h := c7_compile_argument.2.1 [Token.word "a", Token.slash, Token.word "b"]
    "png" [] (by decide) (by decide)
  simpa using h

/-- An ASCII digit's numeric value is below 10. -/
theorem digitVal_lt_ten (c : Char) (h : c.isDigit = true) : digitVal c < 10 := by
  simp [Char.isDigit] at h
  obtain ⟨h1, h2⟩ := h
  rw [UInt32.le_def, BitVec.le_def] at h1 h2
  have e1 : (48 : UInt32).toBitVec.toNat = 48 := by decide
  have e2 : (57 : UInt32).toBitVec.toNat = 57 := by decide
  unfold digitVal Char.toNat UInt32.toNat
  omega

/-- The accumulator form of the `parse::<usize>` value bound. -/
theorem digitsValue_foldl_bound :
    ∀ (l : List Char) (a : Nat), (∀ c ∈ l, c.isDigit = true) →
      l.foldl (fun a c => 10 * a + digitVal c) a < (a + 1) * 10 ^ l.length := by
  intro l
  induction l with
  | nil => intro a _; simpa using Nat.lt_succ_self a
  | cons c rest ih =>
    intro a h
    have hc : digitVal c < 10 :=
      digitVal_lt_ten c (h c (List.mem_cons_self c rest))
    have hrest : ∀ x ∈ rest, x.isDigit = true :=
      fun x hx => h x (List.mem_cons_of_mem c hx)
    have step := ih (10 * a + digitVal c) hrest
    have hle : (10 * a + digitVal c + 1) * 10 ^ rest.length ≤
        ((a + 1) * 10) * 10 ^ rest.length := by
      have : 10 * a + digitVal c + 1 ≤ (a + 1) * 10 := by omega
      exact Nat.mul_le_mul_right _ this
    calc (c :: rest).foldl (fun a c => 10 * a + digitVal c) a
        = rest.foldl (fun a c => 10 * a + digitVal c) (10 * a + digitVal c) := rfl
      _ < (10 * a + digitVal c + 1) * 10 ^ rest.length := step
      _ ≤ ((a + 1) * 10) * 10 ^ rest.length := hle
      _ = (a + 1) * 10 ^ (rest.length + 1) := by ring
      _ = (a + 1) * 10 ^ (c :: rest).length := by simp

/-- Value bound for a digit string. -/
theorem digitsValue_bound (l : List Char) (h : ∀ c ∈ l, c.isDigit = true) :
    digitsValue l < 10 ^ l.length := by
  simpa using digitsValue_foldl_bound l 0 h

/-- `dropWhile` drops exactly the `takeWhile` prefix. -/
theorem dropWhile_eq_drop_takeWhile {α : Type} (p : α → Bool) :
    ∀ l : List α, l.dropWhile p = l.drop (l.takeWhile p).length := by
  intro l
  induction l with
  | nil => rfl
  | cons c rest ih =>
    by_cases hc : p c
    · simp [List.dropWhile_cons, List.takeWhile_cons, hc, ih]
    · simp [List.dropWhile_cons, List.takeWhile_cons, hc]

/-- The remainder after a quoted word is a suffix of the input. -/
theorem getInQuotes_suffix : ∀ l : List Char, ∃ m, (getInQuotesChars l).2 = l.drop m := by
  intro l
  induction l with
  | nil => exact ⟨0, rfl⟩
  | cons c rest ih =>
    by_cases hc : c = '"'
    · exact ⟨1, by simp [getInQuotesChars, hc]⟩
    · obtain ⟨m, hm⟩ := ih
      exact ⟨m + 1, by simp [getInQuotesChars, hc, hm]⟩

/-- A successful `check_multi_token` consumes the pattern. -/
theorem checkMulti_some (pat l r : List Char) (h : checkMulti pat l = some r) :
    r = l.drop pat.length ∧ pat.length ≤ l.length := by
  unfold checkMulti at h
  by_cases hp : pat.isPrefixOf l
  · refine ⟨by simp [hp] at h; exact h.symm, ?_⟩
    exact (List.isPrefixOf_iff_prefix.mp hp).length_le
  · simp [hp] at h

/-- A hit in a table of nonempty patterns consumes at least one character. -/
theorem firstMulti_suffix :
    ∀ (table : List (List Char × Token)) (l : List Char) (t : Token) (r : List Char),
      (∀ p ∈ table, p.1 ≠ []) → firstMulti table l = some (t, r) →
      ∃ k, 0 < k ∧ r = l.drop k := by
  intro table
  induction table with
  | nil => intro l t r _ h; simp [firstMulti] at h
  | cons e table' ih =>
    intro l t r hne h
    obtain ⟨pat, tk⟩ := e
    unfold firstMulti at h
    cases hc : checkMulti pat l with
    | some r' =>
      rw [hc] at h
      obtain ⟨hd, hlen⟩ := checkMulti_some pat l r' hc
      have hpat : pat ≠ [] := hne (pat, tk) (List.mem_cons_self _ _)
      have hpos : 0 < pat.length := List.length_pos.mpr hpat
      simp at h
      exact ⟨pat.length, hpos, by rw [← h.2, hd]⟩
    | none =>
      rw [hc] at h
      exact ih l t r (fun p hp => hne p (List.mem_cons_of_mem _ hp)) h

/-- Every lexer step is either end-of-input, the number-overflow panic, or
a token that consumes at least one character. -/
theorem readNextToken_cases (l : List Char) :
    readNextToken l = LexStep.done ∨
    (readNextToken l = LexStep.lexPanic ∧
      ¬ digitsValue (l.takeWhile Char.isDigit) < usizeBound ∧
      1 ≤ (l.takeWhile Char.isDigit).length ∧
      ∀ c ∈ l.takeWhile Char.isDigit, c.isDigit = true) ∨
    (∃ t k, 0 < k ∧ readNextToken l = LexStep.tok t (l.drop k)) := by
  cases l with
  | nil => exact Or.inl rfl
  | cons c rest =>
    cases hm : firstMulti multiTable (c :: rest) with
    | some p =>
      obtain ⟨t, r⟩ := p
      obtain ⟨k, hk, hr⟩ := firstMulti_suffix multiTable (c :: rest) t r (by decide) hm
      refine Or.inr (Or.inr ⟨t, k, hk, ?_⟩)
      rw [← hr]
      unfold readNextToken
      rw [hm]
    | none =>
      by_cases h1 : c = '.'
      · refine Or.inr (Or.inr ⟨Token.dot, 1, one_pos, ?_⟩)
        unfold readNextToken
        rw [hm]
        simp [h1]
      · by_cases h2 : c = '/'
        · refine Or.inr (Or.inr ⟨Token.slash, 1, one_pos, ?_⟩)
          unfold readNextToken
          rw [hm]
          simp [h1, h2]
        · by_cases h3 : c = ' '
          · refine Or.inr (Or.inr ⟨Token.space, 1, one_pos, ?_⟩)
            unfold readNextToken
            rw [hm]
            simp [h1, h2, h3]
          · by_cases h4 : c = '"'
            · obtain ⟨m, hmq⟩ := getInQuotes_suffix rest
              refine Or.inr (Or.inr
                ⟨Token.word (String.mk (getInQuotesChars rest).1), m + 1, Nat.succ_pos m, ?_⟩)
              unfold readNextToken
              rw [hm]
              simp [h1, h2, h3, h4, hmq]
            · by_cases h5 : c.isDigit
              · have htw : (c :: rest).takeWhile Char.isDigit =
                    c :: rest.takeWhile Char.isDigit := by
                  simp [List.takeWhile_cons, h5]
                have hlen : 1 ≤ ((c :: rest).takeWhile Char.isDigit).length := by
                  rw [htw]; simp
                by_cases h6 : digitsValue ((c :: rest).takeWhile Char.isDigit) < usizeBound
                · refine Or.inr (Or.inr
                    ⟨Token.number (digitsValue ((c :: rest).takeWhile Char.isDigit)),
                     ((c :: rest).takeWhile Char.isDigit).length, hlen, ?_⟩)
                  rw [← dropWhile_eq_drop_takeWhile]
                  unfold readNextToken
                  rw [hm]
                  rw [htw] at h6 ⊢
                  simp [h1, h2, h3, h4, h5, h6]
                · refine Or.inr (Or.inl ⟨?_, h6, hlen, fun x hx => List.mem_takeWhile_imp hx⟩)
                  unfold readNextToken
                  rw [hm]
                  rw [htw] at h6
                  simp [h1, h2, h3, h4, h5, h6]
              · by_cases h7 : c.isAlpha
                · have hns : notStructural c = true := by
                    have hamp : c ≠ '&' := by
                      intro he; subst he; simp [Char.isAlpha] at h7
                    simp [notStructural, h1, h2, h3, hamp]
                  have htw : (c :: rest).takeWhile notStructural =
                      c :: rest.takeWhile notStructural := by
                    simp [List.takeWhile_cons, hns]
                  have hlen : 0 < ((c :: rest).takeWhile notStructural).length := by
                    rw [htw]; simp
                  refine Or.inr (Or.inr
                    ⟨Token.word (String.mk ((c :: rest).takeWhile notStructural)),
                     ((c :: rest).takeWhile notStructural).length, hlen, ?_⟩)
                  rw [← dropWhile_eq_drop_takeWhile]
                  unfold readNextToken
                  rw [hm]
                  simp [h1, h2, h3, h4, h5, h7]
                · refine Or.inr (Or.inr ⟨Token.unexpectedToken c, 1, one_pos, ?_⟩)
                  unfold readNextToken
                  rw [hm]
                  simp [h1, h2, h3, h4, h5, h7]

/-- Absence of a long digit run is inherited by suffixes. -/
theorem hasLongDigitRun_drop :
    ∀ (k : Nat) (l : List Char), hasLongDigitRun l = false →
      hasLongDigitRun (l.drop k) = false := by
  intro k
  induction k with
  | zero => intro l h; simpa using h
  | succ k ih =>
    intro l h
    cases l with
    | nil => simpa using h
    | cons c rest =>
      unfold hasLongDigitRun at h
      rw [Bool.or_eq_false_iff] at h
      exact ih rest h.2

/-- Without a long digit run, the leading digit run is short. -/
theorem hasLongDigitRun_head (l : List Char) (h : hasLongDigitRun l = false) :
    (l.takeWhile Char.isDigit).length < 20 := by
  cases l with
  | nil => simp
  | cons c rest =>
    unfold hasLongDigitRun at h
    rw [Bool.or_eq_false_iff] at h
    have := h.1
    simpa using this

/-- With enough fuel and no overflowing digit run, the tokenize loop
terminates with a token list. -/
theorem tokenizeFuel_total :
    ∀ (fuel : Nat) (l : List Char), l.length ≤ fuel →
      hasLongDigitRun l = false → (tokenizeFuel fuel l).isSome = true := by
  intro fuel
  induction fuel with
  | zero =>
    intro l hl _
    have : l = [] := List.length_eq_zero.mp (Nat.le_zero.mp hl)
    subst this
    rfl
  | succ fuel ih =>
    intro l hl hrun
    rcases readNextToken_cases l with hdone | ⟨hpanic, hval, hlen, hdig⟩ | ⟨t, k, hk, htok⟩
    · simp [tokenizeFuel, hdone]
    · exfalso
      apply hval
      have hlt : (l.takeWhile Char.isDigit).length < 20 := hasLongDigitRun_head l hrun
      calc digitsValue (l.takeWhile Char.isDigit)
          < 10 ^ (l.takeWhile Char.isDigit).length := digitsValue_bound _ hdig
        _ ≤ 10 ^ 19 := Nat.pow_le_pow_right (by norm_num) (by omega)
        _ < usizeBound := by norm_num [usizeBound]
    · have hrest : (l.drop k).length ≤ fuel := by
        have h1 : (l.drop k).length = l.length - k := List.length_drop k l
        have h2 : 0 < l.length := by
          by_contra hz
          have : l = [] := List.length_eq_zero.mp (by omega)
          subst this
          simp [readNextToken] at htok
        omega
      have := ih (l.drop k) hrest (hasLongDigitRun_drop k l hrun)
      simp only [tokenizeFuel, htok]
      simpa using this

/-- C3 (amended): the tokenizer never aborts on unrecognized characters —
they are emitted as `UnexpectedToken` tokens, advancing by one — and it
returns a token sequence for every input without a digit run whose value
overflows `usize` (in particular, for every input with no run of 20
consecutive digits); only such an overflowing digit run makes it fail. -/
theorem c3_tokenize_totality :
    (∀ l : List Char, hasLongDigitRun l = false → (tokenize l).isSome = true) ∧
    (∀ (c : Char) (rest : List Char),
      firstMulti multiTable (c :: rest) = none →
      c ≠ '.' → c ≠ '/' → c ≠ ' ' → c ≠ '"' →
      c.isDigit = false → c.isAlpha = false →
      readNextToken (c :: rest) = LexStep.tok (Token.unexpectedToken c) rest) := by
  constructor
  · intro l h
    exact tokenizeFuel_total l.length l (le_refl _) h
  · intro c rest hm h1 h2 h3 h4 h5 h7
    unfold readNextToken
    rw [hm]
    simp [h1, h2, h3, h4, h5, h7]

/-- Witness for `c3_tokenize_totality`: `ls` tokenizes, and `!` is emitted
as an `UnexpectedToken` without aborting. -/
theorem c3_tokenize_totality_witness :
    (tokenize ['l', 's']).isSome = true ∧
    readNextToken ['!', 'a'] = LexStep.tok (Token.unexpectedToken '!') ['a'] :=
  ⟨c3_tokenize_totality.1 ['l', 's'] (by decide),
   c3_tokenize_totality.2 '!' ['a'] (by decide) (by decide) (by decide) (by decide)
     (by decide) (by decide) (by decide)⟩

/-- Counterexample to C3 as stated: the tokenizer is not total.  On the
input of twenty `9`s the maximal digit run's value exceeds `usize::MAX`, so
`get_number_token`'s `parse::<usize>().unwrap()` panics and tokenization
fails instead of returning a token sequence. -/
theorem c3_counterexample : tokenize (List.replicate 20 '9') = none := by decide

/-- Path resolution distributes over concatenation: failures and panics
short-circuit past the remaining segments. -/
theorem resolvePath_append (s : FsState) :
    ∀ (a b : List NodePathSegment) (cur : Nat),
      resolvePath s cur (a ++ b) =
        match resolvePath s cur a with
        | PRes.ok c => resolvePath s c b
        | PRes.err e => PRes.err e
        | PRes.panic => PRes.panic := by
  intro a
  induction a with
  | nil => intro b cur; rfl
  | cons seg a' ih =>
    intro b cur
    simp only [List.cons_append, resolvePath]
    cases resolveStep s cur seg with
    | ok c => exact ih b c
    | err e => rfl
    | panic => rfl

/-- If no child matches (and all are named), the child scan fails. -/
theorem findChildByName_no_match (s : FsState) (nm : String) :
    ∀ ch : List Nat, (∀ c ∈ ch, ∃ m, nameN s c = some m ∧ m ≠ nm) →
      findChildByName s ch nm = PRes.err () := by
  intro ch
  induction ch with
  | nil => intro _; rfl
  | cons c rest ih =>
    intro h
    obtain ⟨m, hm, hne⟩ := h c (List.mem_cons_self c rest)
    simp only [findChildByName, hm]
    rw [if_neg hne]
    exact ih (fun c' hc' => h c' (List.mem_cons_of_mem c hc'))

/-- The child scan returns the first name match, skipping earlier
non-matching (named) children. -/
theorem findChildByName_first (s : FsState) (nm : String) :
    ∀ (pre : List Nat) (c : Nat) (rest : List Nat),
      (∀ c' ∈ pre, ∃ m, nameN s c' = some m ∧ m ≠ nm) →
      nameN s c = some nm →
      findChildByName s (pre ++ c :: rest) nm = PRes.ok c := by
  intro pre
  induction pre with
  | nil =>
    intro c rest _ hc
    simp [findChildByName, hc]
  | cons p pre' ih =>
    intro c rest h hc
    obtain ⟨m, hm, hne⟩ := h p (List.mem_cons_self p pre')
    simp only [List.cons_append, findChildByName, hm]
    rw [if_neg hne]
    exact ih c rest (fun c' hc' => h c' (List.mem_cons_of_mem p hc')) hc

/-- C1 (amended): resolution starts from the context's current directory
and processes segments in order; `Root` jumps to the tree root; `Dir(name)`
moves to the first immediate child whose name matches, failing with a
resolution error when no (named) child matches, but **panicking** — not
failing — when the current node is a File (`children().unwrap()`);
`Parent` moves to the stored parent, but **panics** — not failing — when
applied at the Root (`parent().unwrap()`); resolution short-circuits,
returning on the first failing segment without processing later
segments. -/
theorem c1_node_from_path :
    (∀ (s : FsState) (p : List NodePathSegment),
      nodeFromPath s p = resolvePath s s.cwd p) ∧
    (∀ (s : FsState) (cur : Nat), resolvePath s cur [] = PRes.ok cur) ∧
    (∀ (s : FsState) (cur : Nat),
      resolveStep s cur NodePathSegment.root = PRes.ok s.rootId) ∧
    (∀ (s : FsState) (cur : Nat) (d : NodeData) (n : String)
        (pre : List Nat) (c : Nat) (rest : List Nat),
      getN s cur = some d → d.childrenOf = some (pre ++ c :: rest) →
      (∀ c' ∈ pre, ∃ m, nameN s c' = some m ∧ m ≠ n) → nameN s c = some n →
      resolveStep s cur (NodePathSegment.dir n) = PRes.ok c) ∧
    (∀ (s : FsState) (cur : Nat) (d : NodeData) (n : String) (ch : List Nat),
      getN s cur = some d → d.childrenOf = some ch →
      (∀ c ∈ ch, ∃ m, nameN s c = some m ∧ m ≠ n) →
      resolveStep s cur (NodePathSegment.dir n) =
        PRes.err InvalidFolder.invalidFolder) ∧
    (∀ (s : FsState) (cur : Nat) (d : NodeData) (n : String),
      getN s cur = some d → d.childrenOf = none →
      resolveStep s cur (NodePathSegment.dir n) = PRes.panic) ∧
    (∀ (s : FsState) (cur p : Nat) (d : NodeData),
      getN s cur = some d → d.parentOf = some (some p) →
      resolveStep s cur NodePathSegment.parent = PRes.ok p) ∧
    (∀ (s : FsState) (cur : Nat) (ch : List Nat),
      getN s cur = some (NodeData.root ch) →
      resolveStep s cur NodePathSegment.parent = PRes.panic) ∧
    (∀ (s : FsState) (cur : Nat) (a b : List NodePathSegment),
      resolvePath s cur (a ++ b) =
        match resolvePath s cur a with
        | PRes.ok c => resolvePath s c b
        | PRes.err e => PRes.err e
        | PRes.panic => PRes.panic) := by
  refine ⟨fun _ _ => rfl, fun _ _ => rfl, fun _ _ => rfl, ?_, ?_, ?_, ?_, ?_, ?_⟩
  · intro s cur d n pre c rest hd hch hpre hc
    simp only [resolveStep, dirToChild, hd, hch]
    rw [findChildByName_first s n pre c rest hpre hc]
  · intro s cur d n ch hd hch hno
    simp only [resolveStep, dirToChild, hd, hch]
    rw [findChildByName_no_match s n ch hno]
  · intro s cur d n hd hch
    simp only [resolveStep, dirToChild, hd, hch]
  · intro s cur p d hd hp
    simp only [resolveStep, dirToParent, hd, hp]
  · intro s cur ch hd
    simp only [resolveStep, dirToParent, hd, NodeData.parentOf]
  · intro s cur a b
    exact resolvePath_append s a b cur

/-- Witness for `c1_node_from_path`: in the sample tree, `documents`
resolves to the first matching child and `..` to the stored parent. -/
theorem c1_node_from_path_witness :
    resolveStep sampleTree 2 (NodePathSegment.dir "documents") = PRes.ok 3 ∧
    resolveStep sampleTree 2 NodePathSegment.parent = PRes.ok 1 :=
  ⟨c1_node_from_path.2.2.2.1 sampleTree 2
      (NodeData.folder "user1" 0 (some 1) [3, 4] 2) "documents" [] 3 [4]
      (by decide) (by decide) (by decide) (by decide),
   c1_node_from_path.2.2.2.2.2.2.1 sampleTree 2 1
      (NodeData.folder "user1" 0 (some 1) [3, 4] 2) (by decide) (by decide)⟩

/-- Counterexample to C1 as stated: a `Parent` segment applied at the Root
panics (`parent().unwrap()` on `None`) instead of returning a resolution
failure, and a `Dir` segment applied when the current node is a File
panics (`children().unwrap()` on `None`) instead of returning `NotFound`. -/
theorem c1_counterexample :
    nodeFromPath rootOnly [NodePathSegment.parent] = PRes.panic ∧
    nodeFromPath loneFile [NodePathSegment.dir "x"] = PRes.panic := by decide

/-- `Node::remove` can only return the formatted not-found message. -/
theorem removeNode_err (s : FsState) (t : Nat) (nm : String) (m : Msg)
    (h : removeNode s t nm = PRes.err m) : m = Msg.couldNotLocate nm := by
  unfold removeNode at h
  cases hg : getN s t with
  | none => simp [hg] at h
  | some d =>
    cases hch : d.childrenOf with
    | none => simp [hg, hch] at h
    | some ch =>
      cases hf : findRemoveIdx s ch nm with
      | ok i => simp [hg, hch, hf] at h
      | err e => simp [hg, hch, hf] at h; exact h.symm
      | panic => simp [hg, hch, hf] at h

/-- C2: when rmdir's parent path resolves, the removal is refused — the
depth-ordering message is printed and the tree is left unchanged — exactly
when the resolved target's depth is less than the current directory's
depth. -/
theorem c2_rmdir_depth_guard (s : FsState) (path : List NodePathSegment)
    (nm : String) (t dt dc : Nat)
    (hres : nodeFromPath s path = PRes.ok t)
    (hdt : depthN s t = some dt) (hdc : depthN s s.cwd = some dc) :
    rmdirExec s path nm = some (s, [Msg.depthOrdering]) ↔ dt < dc := by
  unfold rmdirExec
  simp only [hres, hdt, hdc]
  by_cases h : dt < dc
  · simp [h]
  · simp only [if_neg h]
    constructor
    · intro hcontra
      cases hrm : removeNode s t nm with
      | ok s1 => simp only [hrm] at hcontra; simp at hcontra
      | err m =>
        simp only [hrm] at hcontra
        have := removeNode_err s t nm m hrm
        subst this
        simp at hcontra
      | panic => simp only [hrm] at hcontra; simp at hcontra
    · intro hlt; exact absurd hlt h

/-- Witness for `c2_rmdir_depth_guard`: from `user1` (depth 2), `rmdir`
aimed through `..` at `home` (depth 1) is refused and the tree is
untouched. -/
theorem c2_rmdir_depth_guard_witness :
    rmdirExec sampleTree [NodePathSegment.parent] "user1" =
      some (sampleTree, [Msg.depthOrdering]) :=
  (c2_rmdir_depth_guard sampleTree [NodePathSegment.parent] "user1" 1 1 2
    (by decide) (by decide) (by decide)).mpr (by decide)

/-- A live arena index is in bounds. -/
theorem getN_lt (s : FsState) (i : Nat) (d : NodeData) (h : getN s i = some d) :
    i < s.nodes.length :=
  (List.get?_eq_some.mp h).1

/-- Reading a different index after a write. -/
theorem getN_setN_ne (s : FsState) (i j : Nat) (d : NodeData) (h : i ≠ j) :
    getN (setN s i d) j = getN s j :=
  List.get?_set_ne d s.nodes h

/-- Reading the written index back. -/
theorem getN_setN_same (s : FsState) (i : Nat) (d : NodeData)
    (h : i < s.nodes.length) : getN (setN s i d) i = some d :=
  List.get?_set_eq_of_lt d h

/-- `add(parent, child)` characterized: under a live non-File parent and a
live non-Root child at a different index, it succeeds and the final state
is the original with the child's parent/depth rewritten and the parent's
child list extended (plus, for a Folder parent, the size bump). -/
theorem addNode_spec (s : FsState) (p c : Nat) (pd cd : NodeData)
    (hp : getN s p = some pd) (hc : getN s c = some cd) (hpc : p ≠ c)
    (hpf : pd.isFile = false) (hcr : cd.parentOf.isSome = true) :
    ∃ ch csz, pd.childrenOf = some ch ∧ cd.sizeOf = some csz ∧
      addNode s p c = PRes.ok
        { nodes := (s.nodes.set c
            ((cd.withParent (some p)).withDepth (pd.depthOf + 1))).set p
            ((pd.withChildren (ch ++ [c])).addSize csz),
          rootId := s.rootId, cwd := s.cwd } := by
  have hcl : c < s.nodes.length := getN_lt s c cd hc
  have hpl : p < s.nodes.length := getN_lt s p pd hp
  have hcp : c ≠ p := Ne.symm hpc
  cases pd with
  | file n sz pr dep => simp [NodeData.isFile] at hpf
  | root ch0 =>
    refine ⟨ch0, ?_⟩
    cases cd with
    | root _ => simp [NodeData.parentOf] at hcr
    | folder n2 sz2 pr2 ch2 d2 =>
      refine ⟨sz2, rfl, rfl, ?_⟩
      unfold addNode
      simp only [hp, hc, NodeData.parentOf, NodeData.withParent, NodeData.withDepth]
      rw [getN_setN_ne s c p _ hcp, hp]
      simp only [NodeData.depthOf]
      rw [getN_setN_ne _ c p _ hcp, getN_setN_ne s c p _ hcp, hp]
      simp only [NodeData.childrenOf, NodeData.withChildren, NodeData.addSize, setN]
      simp [List.set_set]
    | file n2 sz2 pr2 d2 =>
      refine ⟨sz2, rfl, rfl, ?_⟩
      unfold addNode
      simp only [hp, hc, NodeData.parentOf, NodeData.withParent, NodeData.withDepth]
      rw [getN_setN_ne s c p _ hcp, hp]
      simp only [NodeData.depthOf]
      rw [getN_setN_ne _ c p _ hcp, getN_setN_ne s c p _ hcp, hp]
      simp only [NodeData.childrenOf, NodeData.withChildren, NodeData.addSize, setN]
      simp [List.set_set]
  | folder n1 sz1 pr1 ch1 dp1 =>
    refine ⟨ch1, ?_⟩
    cases cd with
    | root _ => simp [NodeData.parentOf] at hcr
    | folder n2 sz2 pr2 ch2 d2 =>
      refine ⟨sz2, rfl, rfl, ?_⟩
      unfold addNode
      simp only [hp, hc, NodeData.parentOf, NodeData.withParent, NodeData.withDepth]
      rw [getN_setN_ne s c p _ hcp, hp]
      simp only [NodeData.depthOf]
      rw [getN_setN_ne _ c p _ hcp, getN_setN_ne s c p _ hcp, hp]
      simp only [NodeData.childrenOf, NodeData.withChildren]
      rw [getN_setN_same _ p _ (by simpa [setN] using hpl)]
      rw [getN_setN_ne _ p c _ hpc]
      rw [getN_setN_same _ c _ (by simpa [setN] using hcl)]
      simp only [NodeData.sizeOf, NodeData.addSize, setN]
      simp [List.set_set]
    | file n2 sz2 pr2 d2 =>
      refine ⟨sz2, rfl, rfl, ?_⟩
      unfold addNode
      simp only [hp, hc, NodeData.parentOf, NodeData.withParent, NodeData.withDepth]
      rw [getN_setN_ne s c p _ hcp, hp]
      simp only [NodeData.depthOf]
      rw [getN_setN_ne _ c p _ hcp, getN_setN_ne s c p _ hcp, hp]
      simp only [NodeData.childrenOf, NodeData.withChildren]
      rw [getN_setN_same _ p _ (by simpa [setN] using hpl)]
      rw [getN_setN_ne _ p c _ hpc]
      rw [getN_setN_same _ c _ (by simpa [setN] using hcl)]
      simp only [NodeData.sizeOf, NodeData.addSize, setN]
      simp [List.set_set]

/-- C4: `add(parent, child)` fails with `NodeTypeError` when the parent is
a File; on success it sets the child's parent back-reference to the
parent, sets the child's depth to the parent's depth plus one, appends the
child to the parent's child list, and increments the parent's size by the
child's size only when the parent is a Folder (Root tracks no size); no
other node — in particular no further ancestor — changes. -/
theorem c4_add_effects (s : FsState) (p c : Nat) (pd cd : NodeData)
    (hp : getN s p = some pd) (hc : getN s c = some cd) (hpc : p ≠ c) :
    (pd.isFile = true → addNode s p c = PRes.err NodeTypeError.nodeTypeError) ∧
    (pd.isFile = false → cd.parentOf.isSome = true →
      ∃ s' ch csz, addNode s p c = PRes.ok s' ∧
        pd.childrenOf = some ch ∧ cd.sizeOf = some csz ∧
        getN s' c = some ((cd.withParent (some p)).withDepth (pd.depthOf + 1)) ∧
        childIds s' p = ch ++ [c] ∧
        (∀ psz, pd.sizeOf = some psz → sizeN s' p = some (psz + csz)) ∧
        (pd.sizeOf = none → sizeN s' p = none) ∧
        sizeN s' c = cd.sizeOf ∧
        (∀ i, i ≠ p → i ≠ c → getN s' i = getN s i) ∧
        s'.rootId = s.rootId ∧ s'.cwd = s.cwd) := by
  constructor
  · intro hf
    cases pd with
    | file n sz pr dep => unfold addNode; simp only [hp]
    | root ch0 => simp [NodeData.isFile] at hf
    | folder n sz pr ch0 dep => simp [NodeData.isFile] at hf
  · intro hpf hcr
    obtain ⟨ch, csz, hch, hcsz, hadd⟩ :=
      addNode_spec s p c pd cd hp hc hpc hpf hcr
    have hcl : c < s.nodes.length := getN_lt s c cd hc
    have hpl : p < s.nodes.length := getN_lt s p pd hp
    refine ⟨setN (setN s c
        ((cd.withParent (some p)).withDepth (pd.depthOf + 1))) p
        ((pd.withChildren (ch ++ [c])).addSize csz), ch, csz, hadd, hch, hcsz,
      ?_, ?_, ?_, ?_, ?_, ?_, rfl, rfl⟩
    · rw [getN_setN_ne _ p c _ hpc, getN_setN_same _ c _ hcl]
    · unfold childIds
      rw [getN_setN_same _ p _ (by simpa [setN] using hpl)]
      cases pd with
      | file n sz pr dep => simp [NodeData.isFile] at hpf
      | root ch0 => rfl
      | folder n sz pr ch0 dep => rfl
    · intro psz hpsz
      unfold sizeN
      rw [getN_setN_same _ p _ (by simpa [setN] using hpl)]
      cases pd with
      | file n sz pr dep => simp [NodeData.isFile] at hpf
      | root ch0 => simp [NodeData.sizeOf] at hpsz
      | folder n sz pr ch0 dep =>
        simp only [NodeData.sizeOf] at hpsz
        injection hpsz with hpsz
        subst hpsz
        rfl
    · intro hnone
      unfold sizeN
      rw [getN_setN_same _ p _ (by simpa [setN] using hpl)]
      cases pd with
      | file n sz pr dep => simp [NodeData.isFile] at hpf
      | root ch0 => rfl
      | folder n sz pr ch0 dep => simp [NodeData.sizeOf] at hnone
    · unfold sizeN
      rw [getN_setN_ne _ p c _ hpc, getN_setN_same _ c _ hcl]
      cases cd with
      | root _ => simp [NodeData.parentOf] at hcr
      | folder n2 sz2 pr2 ch2 d2 => rfl
      | file n2 sz2 pr2 d2 => rfl
    · intro i hip hic
      rw [getN_setN_ne _ p i _ (Ne.symm hip), getN_setN_ne _ c i _ (Ne.symm hic)]

/-- Witness for `c4_add_effects`: adding a fresh file node 7 to folder
`photos` (node 4) in the sample tree extended with that node. -/
theorem c4_add_effects_witness :
    ∃ s' ch csz,
      addNode
          { nodes := sampleTree.nodes ++ [NodeData.file "a.png" 5 none 0],
            rootId := 0, cwd := 2 } 4 7 = PRes.ok s' ∧
      (NodeData.folder "photos" 0 (some 2) [] 3).childrenOf = some ch ∧
      (NodeData.file "a.png" 5 none 0).sizeOf = some csz ∧
      getN s' 7 = some
        (((NodeData.file "a.png" 5 none 0).withParent (some 4)).withDepth
          ((NodeData.folder "photos" 0 (some 2) [] 3).depthOf + 1)) ∧
      childIds s' 4 = ch ++ [7] ∧
      (∀ psz, (NodeData.folder "photos" 0 (some 2) [] 3).sizeOf = some psz →
        sizeN s' 4 = some (psz + csz)) ∧
      ((NodeData.folder "photos" 0 (some 2) [] 3).sizeOf = none →
        sizeN s' 4 = none) ∧
      sizeN s' 7 = (NodeData.file "a.png" 5 none 0).sizeOf ∧
      (∀ i, i ≠ 4 → i ≠ 7 →
        getN s' i = getN
          { nodes := sampleTree.nodes ++ [NodeData.file "a.png" 5 none 0],
            rootId := 0, cwd := 2 } i) ∧
      s'.rootId = 0 ∧ s'.cwd = 2 :=
  (c4_add_effects
    { nodes := sampleTree.nodes ++ [NodeData.file "a.png" 5 none 0],
      rootId := 0, cwd := 2 } 4 7
    (NodeData.folder "photos" 0 (some 2) [] 3)
    (NodeData.file "a.png" 5 none 0)
    (by decide) (by decide) (by decide)).2 (by decide) (by decide)

/-- `get_index` returns the index of the first child whose name matches —
by name only, with the node kind never examined. -/
theorem findRemoveIdx_first (s : FsState) (nm : String) :
    ∀ (ch : List Nat) (i : Nat), findRemoveIdx s ch nm = PRes.ok i →
      ∃ c, ch.get? i = some c ∧ nameN s c = some nm ∧
        ∀ j c', j < i → ch.get? j = some c' → nameN s c' ≠ some nm := by
  intro ch
  induction ch with
  | nil => intro i h; simp [findRemoveIdx] at h
  | cons c rest ih =>
    intro i h
    unfold findRemoveIdx at h
    cases hn : nameN s c with
    | none => simp [hn] at h
    | some m =>
      simp only [hn] at h
      by_cases hm : m = nm
      · rw [if_pos hm] at h
        injection h with h
        subst h
        subst hm
        exact ⟨c, rfl, hn, fun j c' hj _ => absurd hj (Nat.not_lt_zero j)⟩
      · rw [if_neg hm] at h
        cases hf : findRemoveIdx s rest nm with
        | ok i' =>
          rw [hf] at h
          injection h with h
          subst h
          obtain ⟨c', hg, hname, hearlier⟩ := ih i' hf
          refine ⟨c', hg, hname, ?_⟩
          intro j c'' hj hgj
          cases j with
          | zero =>
            simp only [List.get?] at hgj
            injection hgj with hgj
            subst hgj
            rw [hn]
            intro he
            injection he with he
            exact hm he
          | succ j' => exact hearlier j' c'' (by omega) hgj
        | err e => rw [hf] at h; simp at h
        | panic => rw [hf] at h; simp at h

/-- Inversion for a successful `Node::remove`. -/
theorem removeNode_ok (s : FsState) (t : Nat) (nm : String) (s' : FsState)
    (h : removeNode s t nm = PRes.ok s') :
    ∃ d ch i, getN s t = some d ∧ d.childrenOf = some ch ∧
      findRemoveIdx s ch nm = PRes.ok i ∧
      s' = setN s t (d.withChildren (swapRemove ch i)) := by
  unfold removeNode at h
  cases hg : getN s t with
  | none => simp [hg] at h
  | some d =>
    cases hch : d.childrenOf with
    | none => simp [hg, hch] at h
    | some ch =>
      cases hf : findRemoveIdx s ch nm with
      | ok i =>
        simp only [hg, hch, hf] at h
        injection h with h
        exact ⟨d, ch, i, rfl, hch, hf, h.symm⟩
      | err e => simp [hg, hch, hf] at h
      | panic => simp [hg, hch, hf] at h

/-- Removal never changes any node's size field (no ancestor size
adjustment on removal). -/
theorem removeNode_sizes (s : FsState) (t : Nat) (nm : String) (s' : FsState)
    (h : removeNode s t nm = PRes.ok s') : ∀ i, sizeN s' i = sizeN s i := by
  obtain ⟨d, ch, idx, hg, hch, hf, hs⟩ := removeNode_ok s t nm s' h
  intro i
  by_cases hit : i = t
  · subst hit hs
    unfold sizeN
    rw [getN_setN_same _ i _ (getN_lt s i d hg), hg]
    cases d <;> rfl
  · subst hs
    unfold sizeN
    rw [getN_setN_ne _ t i _ (Ne.symm hit)]

/-- `swap_remove` on a list ending in `d`: the last element is `d`. -/
theorem swapRemove_concat (l : List Nat) (d : Nat) (i : Nat) :
    swapRemove (l ++ [d]) i = ((l ++ [d]).set i d).dropLast := by
  unfold swapRemove
  rw [List.getLast?_concat]

/-- Scanning `old children ++ [fresh]` for the fresh node's name finds a
match, and swap-removing it restores the original name list. -/
theorem findRemoveIdx_append_last (s : FsState) (x : String) :
    ∀ (ch : List Nat) (d : Nat),
      (∀ c ∈ ch, (nameN s c).isSome = true) → nameN s d = some x →
      ∃ i, findRemoveIdx s (ch ++ [d]) x = PRes.ok i ∧
        (swapRemove (ch ++ [d]) i).map (nameN s) = ch.map (nameN s) := by
  intro ch
  induction ch with
  | nil =>
    intro d _ hd
    refine ⟨0, ?_, ?_⟩
    · simp [findRemoveIdx, hd]
    · simp [swapRemove]
  | cons c rest ih =>
    intro d hnamed hd
    obtain ⟨m, hm⟩ : ∃ m, nameN s c = some m := by
      have := hnamed c (List.mem_cons_self c rest)
      cases hx : nameN s c with
      | none => rw [hx] at this; simp at this
      | some m => exact ⟨m, rfl⟩
    by_cases hmx : m = x
    · refine ⟨0, ?_, ?_⟩
      · simp [findRemoveIdx, hm, hmx]
      · rw [swapRemove_concat, List.cons_append, List.set_cons_zero,
          ← List.cons_append, List.dropLast_concat]
        simp [hm, hd, hmx]
    · obtain ⟨i, hfi, hswap⟩ :=
        ih d (fun c' hc' => hnamed c' (List.mem_cons_of_mem c hc')) hd
      refine ⟨i + 1, ?_, ?_⟩
      · show findRemoveIdx s (c :: (rest ++ [d])) x = PRes.ok (i + 1)
        unfold findRemoveIdx
        simp only [hm]
        rw [if_neg hmx, hfi]
      · rw [swapRemove_concat, List.cons_append, List.set_cons_succ]
        rw [List.dropLast_cons_of_ne_nil (by
          intro he
          have : ((rest ++ [d]).set i d).length = 0 := by rw [he]; rfl
          rw [List.length_set] at this
          simp at this)]
        rw [swapRemove_concat] at hswap
        simp only [List.map_cons]
        rw [hswap]

/-- Rewriting a node's child list and size preserves its name. -/
theorem nameOf_withChildren_addSize (d : NodeData) (L : List Nat) (k : Nat) :
    ((d.withChildren L).addSize k).nameOf = d.nameOf := by
  cases d <;> rfl

/-- Rewriting a node's child list preserves its name. -/
theorem nameOf_withChildren (d : NodeData) (L : List Nat) :
    (d.withChildren L).nameOf = d.nameOf := by
  cases d <;> rfl

/-- Rewriting a non-File node's child list (and size) installs that list. -/
theorem childrenOf_withChildren_addSize (d : NodeData) (L : List Nat) (k : Nat)
    (h : d.isFile = false) : ((d.withChildren L).addSize k).childrenOf = some L := by
  cases d with
  | file n sz pr dep => simp [NodeData.isFile] at h
  | root ch => rfl
  | folder n sz pr ch dep => rfl

/-- Rewriting a non-File node's child list installs that list. -/
theorem childrenOf_withChildren (d : NodeData) (L : List Nat)
    (h : d.isFile = false) : (d.withChildren L).childrenOf = some L := by
  cases d with
  | file n sz pr dep => simp [NodeData.isFile] at h
  | root ch => rfl
  | folder n sz pr ch dep => rfl

/-- Rewriting a node's child list and size preserves the `isFile` tag. -/
theorem isFile_withChildren_addSize (d : NodeData) (L : List Nat) (k : Nat) :
    ((d.withChildren L).addSize k).isFile = d.isFile := by
  cases d <;> rfl

/-- The shape of a successful `mkdir` execution: the fresh Folder record is
appended to the arena, its parent and depth are set, and the resolved
parent gains it as its last child (size bumped by the new folder's 0). -/
theorem mkdirExec_shape (s : FsState) (path : List NodePathSegment) (x : String)
    (p : Nat) (pd : NodeData)
    (hres : nodeFromPath s path = PRes.ok p)
    (hp : getN s p = some pd) (hpf : pd.isFile = false)
    (hx : ¬ x.length > 12) :
    ∃ ch, pd.childrenOf = some ch ∧
      mkdirExec s path x = some
        (setN (setN { s with nodes := s.nodes ++ [NodeData.folder x 0 none [] 0] }
            s.nodes.length (NodeData.folder x 0 (some p) [] (pd.depthOf + 1))) p
          ((pd.withChildren (ch ++ [s.nodes.length])).addSize 0), []) := by
  have hplen : p < s.nodes.length := getN_lt s p pd hp
  have hs1p : getN { s with nodes := s.nodes ++ [NodeData.folder x 0 none [] 0] }
      p = some pd := by
    unfold getN at hp ⊢
    simp only
    rw [List.get?_append hplen]
    exact hp
  have hs1c : getN { s with nodes := s.nodes ++ [NodeData.folder x 0 none [] 0] }
      s.nodes.length = some (NodeData.folder x 0 none [] 0) := by
    unfold getN
    simp only
    exact List.get?_concat_length s.nodes _
  obtain ⟨ch, csz, hch, hcsz, haddeq⟩ :=
    addNode_spec { s with nodes := s.nodes ++ [NodeData.folder x 0 none [] 0] }
      p s.nodes.length pd (NodeData.folder x 0 none [] 0) hs1p hs1c
      (by omega) hpf rfl
  have hcsz0 : csz = 0 := by
    simp only [NodeData.sizeOf] at hcsz
    injection hcsz with h
    exact h.symm
  subst hcsz0
  refine ⟨ch, hch, ?_⟩
  unfold mkdirExec
  rw [if_neg hx]
  simp only [hres, haddeq]
  rfl

/-- C9: removal performs no size bookkeeping anywhere (no ancestor's size
ever changes on removal), and `mkdir x` followed by `rmdir x` at the same
resolved parent restores the parent's child collection to its prior state
by name (proved as equality of the full name list, which implies equality
of the name set), while the parent's `size` field is untouched by the
removal. -/
theorem c9_mkdir_rmdir_roundtrip :
    (∀ (s : FsState) (t : Nat) (nm : String) (s' : FsState),
      removeNode s t nm = PRes.ok s' → ∀ i, sizeN s' i = sizeN s i) ∧
    (∀ (s : FsState) (path : List NodePathSegment) (x : String) (p : Nat)
        (pd : NodeData) (s' : FsState),
      nodeFromPath s path = PRes.ok p →
      getN s p = some pd → pd.isFile = false →
      (∀ c ∈ childIds s p, (nameN s c).isSome = true) →
      ¬ x.length > 12 →
      (getN s s.cwd).isSome = true →
      mkdirExec s path x = some (s', []) →
      nodeFromPath s' path = PRes.ok p →
      (∀ dt dc, depthN s' p = some dt → depthN s' s'.cwd = some dc → ¬ dt < dc) →
      ∃ s2, rmdirExec s' path x = some (s2, []) ∧
        childNames s2 p = childNames s p ∧
        (∀ n, n ∈ childNames s2 p ↔ n ∈ childNames s p) ∧
        (∀ i, sizeN s2 i = sizeN s' i)) := by
  constructor
  · exact removeNode_sizes
  · intro s path x p pd s' hres hp hpf hnamed hx hcwd hmk hres' hdepth
    obtain ⟨ch, hch, hmk'⟩ := mkdirExec_shape s path x p pd hres hp hpf hx
    rw [hmk'] at hmk
    have hs' : s' = setN (setN
        { s with nodes := s.nodes ++ [NodeData.folder x 0 none [] 0] }
        s.nodes.length (NodeData.folder x 0 (some p) [] (pd.depthOf + 1))) p
        ((pd.withChildren (ch ++ [s.nodes.length])).addSize 0) := by
      have := Option.some.inj hmk
      exact (congrArg Prod.fst this).symm
    have hplen : p < s.nodes.length := getN_lt s p pd hp
    have hpnew : p ≠ s.nodes.length := by omega
    have hf1 : getN s' p =
        some ((pd.withChildren (ch ++ [s.nodes.length])).addSize 0) := by
      rw [hs']
      exact getN_setN_same _ p _
        (by simp [setN, List.length_set, List.length_append]; omega)
    have hf3 : ∀ i, i < s.nodes.length → i ≠ p → getN s' i = getN s i := by
      intro i hil hip
      rw [hs', getN_setN_ne _ p i _ (Ne.symm hip),
        getN_setN_ne _ s.nodes.length i _ (by omega)]
      unfold getN
      simp only
      exact List.get?_append hil
    have hf4 : nameN s' s.nodes.length = some x := by
      unfold nameN
      rw [hs', getN_setN_ne _ p s.nodes.length _ hpnew,
        getN_setN_same _ s.nodes.length _ (by simp [List.length_append])]
      rfl
    have hf5 : ∀ c, c < s.nodes.length → nameN s' c = nameN s c := by
      intro c hcl
      by_cases hcp : c = p
      · subst hcp
        unfold nameN
        simp only [hf1, hp, nameOf_withChildren_addSize]
      · unfold nameN
        rw [hf3 c hcl hcp]
    have hf6 : childIds s p = ch := by
      unfold childIds
      rw [hp]
      simp [hch]
    have hlt_of_name : ∀ c, (nameN s c).isSome = true → c < s.nodes.length := by
      intro c hn
      cases hg : getN s c with
      | none => unfold nameN at hn; rw [hg] at hn; simp at hn
      | some d => exact getN_lt s c d hg
    have hf7 : ∀ c ∈ ch, (nameN s' c).isSome = true := by
      intro c hc
      have hn := hnamed c (by rw [hf6]; exact hc)
      rw [hf5 c (hlt_of_name c hn)]
      exact hn
    obtain ⟨i, hfi, hswap⟩ :=
      findRemoveIdx_append_last s' x ch s.nodes.length hf7 hf4
    have hYch : ((pd.withChildren (ch ++ [s.nodes.length])).addSize 0).childrenOf =
        some (ch ++ [s.nodes.length]) :=
      childrenOf_withChildren_addSize pd _ 0 hpf
    have hrm : removeNode s' p x = PRes.ok (setN s' p
        (((pd.withChildren (ch ++ [s.nodes.length])).addSize 0).withChildren
          (swapRemove (ch ++ [s.nodes.length]) i))) := by
      unfold removeNode
      simp only [hf1, hYch, hfi]
    have hcwdeq : s'.cwd = s.cwd := by rw [hs']; rfl
    have hdcv : ∃ dc, depthN s' s'.cwd = some dc := by
      rw [hcwdeq]
      by_cases hcp : s.cwd = p
      · rw [hcp]
        exact ⟨_, by unfold depthN; rw [hf1]; rfl⟩
      · have hcl : s.cwd < s.nodes.length := by
          cases hg : getN s s.cwd with
          | none => rw [hg] at hcwd; simp at hcwd
          | some d => exact getN_lt s s.cwd d hg
        unfold depthN
        rw [hf3 s.cwd hcl hcp]
        cases hg : getN s s.cwd with
        | none => rw [hg] at hcwd; simp at hcwd
        | some d => exact ⟨d.depthOf, rfl⟩
    obtain ⟨dc, hdc⟩ := hdcv
    have hdt : depthN s' p =
        some ((pd.withChildren (ch ++ [s.nodes.length])).addSize 0).depthOf := by
      unfold depthN; rw [hf1]; rfl
    have hnlt := hdepth _ dc hdt hdc
    have hplen' : p < s'.nodes.length := by
      rw [hs']
      simp [setN, List.length_set, List.length_append]
      omega
    have hg2 : getN (setN s' p
        (((pd.withChildren (ch ++ [s.nodes.length])).addSize 0).withChildren
          (swapRemove (ch ++ [s.nodes.length]) i))) p =
        some (((pd.withChildren (ch ++ [s.nodes.length])).addSize 0).withChildren
          (swapRemove (ch ++ [s.nodes.length]) i)) :=
      getN_setN_same s' p _ hplen'
    have hname2 : ∀ c, nameN (setN s' p
        (((pd.withChildren (ch ++ [s.nodes.length])).addSize 0).withChildren
          (swapRemove (ch ++ [s.nodes.length]) i))) c = nameN s' c := by
      intro c
      by_cases hcp : c = p
      · subst hcp
        unfold nameN
        simp only [hg2, hf1, nameOf_withChildren, nameOf_withChildren_addSize]
      · unfold nameN
        rw [getN_setN_ne _ p c _ (Ne.symm hcp)]
    have hceq : childNames (setN s' p
        (((pd.withChildren (ch ++ [s.nodes.length])).addSize 0).withChildren
          (swapRemove (ch ++ [s.nodes.length]) i))) p = childNames s p := by
      unfold childNames childIds
      rw [hg2, hp]
      simp only [Option.some_bind, hch, Option.getD_some]
      rw [childrenOf_withChildren _ _ (by rw [isFile_withChildren_addSize]; exact hpf)]
      simp only [Option.getD_some]
      rw [List.map_congr_left (fun a _ => hname2 a), hswap]
      refine List.map_congr_left ?_
      intro c hc
      exact hf5 c (hlt_of_name c (hnamed c (by rw [hf6]; exact hc)))
    refine ⟨_, ?_, hceq, fun n => by rw [hceq], removeNode_sizes s' p x _ hrm⟩
    unfold rmdirExec
    simp only [hres', hdt, hdc]
    rw [if_neg hnlt, hrm]

/-- Witness for `c9_mkdir_rmdir_roundtrip`: `mkdir newdir && rmdir newdir`
in `user1` of the sample tree restores the child name list. -/
theorem c9_mkdir_rmdir_roundtrip_witness :
    ∃ s2, rmdirExec
        { nodes :=
            [ NodeData.root [1],
              NodeData.folder "home" 0 (some 0) [2] 1,
              NodeData.folder "user1" 0 (some 1) [3, 4, 7] 2,
              NodeData.folder "documents" 2 (some 2) [5, 6] 3,
              NodeData.folder "photos" 0 (some 2) [] 3,
              NodeData.file "cv.pdf" 1 (some 3) 4,
              NodeData.file "data.dat" 1 (some 3) 4,
              NodeData.folder "newdir" 0 (some 2) [] 3 ],
          rootId := 0, cwd := 2 } [] "newdir" = some (s2, []) ∧
      childNames s2 2 = childNames sampleTree 2 ∧
      (∀ n, n ∈ childNames s2 2 ↔ n ∈ childNames sampleTree 2) ∧
      (∀ i, sizeN s2 i = sizeN
        { nodes :=
            [ NodeData.root [1],
              NodeData.folder "home" 0 (some 0) [2] 1,
              NodeData.folder "user1" 0 (some 1) [3, 4, 7] 2,
              NodeData.folder "documents" 2 (some 2) [5, 6] 3,
              NodeData.folder "photos" 0 (some 2) [] 3,
              NodeData.file "cv.pdf" 1 (some 3) 4,
              NodeData.file "data.dat" 1 (some 3) 4,
              NodeData.folder "newdir" 0 (some 2) [] 3 ],
          rootId := 0, cwd := 2 } i) :=
  c9_mkdir_rmdir_roundtrip.2 sampleTree [] "newdir" 2
    (NodeData.folder "user1" 0 (some 1) [3, 4] 2)
    { nodes :=
        [ NodeData.root [1],
          NodeData.folder "home" 0 (some 0) [2] 1,
          NodeData.folder "user1" 0 (some 1) [3, 4, 7] 2,
          NodeData.folder "documents" 2 (some 2) [5, 6] 3,
          NodeData.folder "photos" 0 (some 2) [] 3,
          NodeData.file "cv.pdf" 1 (some 3) 4,
          NodeData.file "data.dat" 1 (some 3) 4,
          NodeData.folder "newdir" 0 (some 2) [] 3 ],
      rootId := 0, cwd := 2 }
    (by decide) (by decide) (by decide) (by decide) (by decide) (by decide)
    (by decide) (by decide)
    (by
      intro dt dc h1 h2
      have e1 : depthN
          { nodes :=
              [ NodeData.root [1],
                NodeData.folder "home" 0 (some 0) [2] 1,
                NodeData.folder "user1" 0 (some 1) [3, 4, 7] 2,
                NodeData.folder "documents" 2 (some 2) [5, 6] 3,
                NodeData.folder "photos" 0 (some 2) [] 3,
                NodeData.file "cv.pdf" 1 (some 3) 4,
                NodeData.file "data.dat" 1 (some 3) 4,
                NodeData.folder "newdir" 0 (some 2) [] 3 ],
            rootId := 0, cwd := 2 } 2 = some 2 := by decide
      rw [e1] at h1 h2
      injection h1 with h1
      injection h2 with h2
      omega)

/-- C10: `remove(node, name)` matches children by name only, never by node
kind — it detaches the first child whose name matches — and consequently
there are tree states where `rm` removes a Folder and `rmdir` removes a
File, whenever such a node is the first name match among the resolved
parent's children. -/
theorem c10_remove_by_name_only :
    (∀ (s : FsState) (ch : List Nat) (nm : String) (i : Nat),
      findRemoveIdx s ch nm = PRes.ok i →
      ∃ c, ch.get? i = some c ∧ nameN s c = some nm ∧
        ∀ j c', j < i → ch.get? j = some c' → nameN s c' ≠ some nm) ∧
    (rmExec smallTree [] "x.png" =
      some (Prod.mk
        { nodes :=
            [ NodeData.root [2],
              NodeData.folder "x.png" 0 (some 0) [] 1,
              NodeData.file "y.abc" 1 (some 0) 1 ],
          rootId := 0, cwd := 0 }
        []) ∧
      getN smallTree 1 = some (NodeData.folder "x.png" 0 (some 0) [] 1) ∧
      1 ∈ childIds smallTree 0 ∧
      1 ∉ childIds
        { nodes :=
            [ NodeData.root [2],
              NodeData.folder "x.png" 0 (some 0) [] 1,
              NodeData.file "y.abc" 1 (some 0) 1 ],
          rootId := 0, cwd := 0 } 0) ∧
    (rmdirExec smallTree [] "y.abc" =
      some (Prod.mk
        { nodes :=
            [ NodeData.root [1],
              NodeData.folder "x.png" 0 (some 0) [] 1,
              NodeData.file "y.abc" 1 (some 0) 1 ],
          rootId := 0, cwd := 0 }
        []) ∧
      getN smallTree 2 = some (NodeData.file "y.abc" 1 (some 0) 1) ∧
      2 ∈ childIds smallTree 0 ∧
      2 ∉ childIds
        { nodes :=
            [ NodeData.root [1],
              NodeData.folder "x.png" 0 (some 0) [] 1,
              NodeData.file "y.abc" 1 (some 0) 1 ],
          rootId := 0, cwd := 0 } 0) :=
  ⟨fun s ch nm i h => findRemoveIdx_first s nm ch i h, by decide, by decide⟩

/-- Witness for `c10_remove_by_name_only`: the first-match property at a
concrete scan that skips the non-matching folder and hits the file. -/
theorem c10_remove_by_name_only_witness :
    ∃ c, ([1, 2] : List Nat).get? 1 = some c ∧
      nameN smallTree c = some "y.abc" ∧
      ∀ j c', j < 1 → ([1, 2] : List Nat).get? j = some c' →
        nameN smallTree c' ≠ some "y.abc" :=
  c10_remove_by_name_only.1 smallTree [1, 2] "y.abc" 1 (by decide)

/-- C8 (amended): execution-time failures never propagate, but only `rm`
and `rmdir` print a message when their path fails to resolve — `cd`, `ls`,
`mkdir` and `touch` silently do nothing on a resolution failure (printing
nothing); policy violations (name length, size bounds, extension length)
and name-not-found on removal are reported with a printed message and
leave the tree unchanged. -/
theorem c8_execution_errors :
    (∀ (s : FsState) (path : List NodePathSegment) (e : InvalidFolder)
        (nm fn : String) (sz : Nat),
      nodeFromPath s path = PRes.err e →
      cdExec s path = some (s, []) ∧
      lsExec s path = some (s, []) ∧
      (¬ nm.length > 12 → mkdirExec s path nm = some (s, [])) ∧
      (touchPolicy fn sz = none → touchExec s path fn sz = some (s, [])) ∧
      rmExec s path nm = some (s, [Msg.invalidPathMsg]) ∧
      rmdirExec s path nm = some (s, [Msg.invalidPathMsg])) ∧
    (∀ (s : FsState) (path : List NodePathSegment) (nm : String),
      nm.length > 12 →
      mkdirExec s path nm = some (s, [Msg.dirNameTooLong])) ∧
    (∀ (s : FsState) (path : List NodePathSegment) (fn : String) (sz : Nat)
        (m : Msg),
      touchPolicy fn sz = some m →
      touchExec s path fn sz = some (s, [m])) ∧
    (∀ (s : FsState) (path : List NodePathSegment) (t : Nat) (nm : String)
        (m : Msg),
      nodeFromPath s path = PRes.ok t → removeNode s t nm = PRes.err m →
      rmExec s path nm = some (s, [m])) := by
  refine ⟨?_, ?_, ?_, ?_⟩
  · intro s path e nm fn sz hres
    refine ⟨?_, ?_, ?_, ?_, ?_, ?_⟩
    · unfold cdExec; simp only [hres]
    · unfold lsExec; simp only [hres]
    · intro h12; unfold mkdirExec; rw [if_neg h12]; simp only [hres]
    · intro hpol; unfold touchExec; simp only [hpol, hres]
    · unfold rmExec; simp only [hres]
    · unfold rmdirExec; simp only [hres]
  · intro s path nm h12
    unfold mkdirExec
    rw [if_pos h12]
  · intro s path fn sz m hpol
    unfold touchExec
    simp only [hpol]
  · intro s path t nm m hres hrm
    unfold rmExec
    simp only [hres, hrm]

/-- Witness for `c8_execution_errors`: an unresolvable path in the sample
tree is silent for `cd`/`ls`/`mkdir`/`touch` and prints `Invalid path` for
`rm`/`rmdir`. -/
theorem c8_execution_errors_witness :
    cdExec sampleTree [NodePathSegment.dir "nope"] = some (sampleTree, []) ∧
    lsExec sampleTree [NodePathSegment.dir "nope"] = some (sampleTree, []) ∧
    (¬ ("d" : String).length > 12 →
      mkdirExec sampleTree [NodePathSegment.dir "nope"] "d" =
        some (sampleTree, [])) ∧
    (touchPolicy "a.png" 1 = none →
      touchExec sampleTree [NodePathSegment.dir "nope"] "a.png" 1 =
        some (sampleTree, [])) ∧
    rmExec sampleTree [NodePathSegment.dir "nope"] "d" =
      some (sampleTree, [Msg.invalidPathMsg]) ∧
    rmdirExec sampleTree [NodePathSegment.dir "nope"] "d" =
      some (sampleTree, [Msg.invalidPathMsg]) :=
  c8_execution_errors.1 sampleTree [NodePathSegment.dir "nope"]
    InvalidFolder.invalidFolder "d" "a.png" 1 (by decide)

/-- Counterexample to C8 as stated: when their path fails to resolve at
execution time, `cd`, `ls`, `mkdir` and `touch` print no message at all
(their `if let Ok(target)` has no else branch) — the claim says each of
them prints one. -/
theorem c8_counterexample :
    cdExec smallTree [NodePathSegment.dir "zzz"] = some (smallTree, []) ∧
    lsExec smallTree [NodePathSegment.dir "zzz"] = some (smallTree, []) ∧
    mkdirExec smallTree [NodePathSegment.dir "zzz"] "d" = some (smallTree, []) ∧
    touchExec smallTree [NodePathSegment.dir "zzz"] "a.png" 1 =
      some (smallTree, []) := by decide

/-- C5: if parsing a line fails — in particular when any command in an
`&&` chain fails its parse-time validation — the whole line is rejected
with the error message, the state is untouched and no command (not even an
earlier, individually valid one) executes; when parsing succeeds, the
commands run left-to-right by folding execution over the list in order;
and a build failure at an `&&` boundary fails the whole parse. -/
theorem c5_chain_semantics :
    (∀ (s : FsState) (ts : List Token) (e : SyntaxError),
      generateCommands ts = PRes.err e →
      processTokens s ts = some (s, [Msg.syntaxErr e])) ∧
    (∀ (s : FsState) (ts : List Token) (cmds : List Cmd),
      generateCommands ts = PRes.ok cmds →
      processTokens s ts = runCmds s cmds) ∧
    (∀ (s : FsState) (c : Cmd) (rest : List Cmd),
      runCmds s (c :: rest) =
        match execCmd s c with
        | none => none
        | some (s1, out) =>
          match runCmds s1 rest with
          | none => none
          | some (s2, out2) => some (s2, out ++ out2)) ∧
    (∀ (tokens rest : List Token) (cursor : Nat) (prev : Option Token)
        (b : CommandBuilder) (argStart : Option Nat) (acc : List Cmd)
        (e : SyntaxError),
      buildCmd b = PRes.err e →
      ∃ e', genGo tokens (Token.and :: rest) cursor prev (some b) argStart acc =
        PRes.err e') := by
  refine ⟨?_, ?_, ?_, ?_⟩
  · intro s ts e h
    unfold processTokens
    simp only [h]
  · intro s ts cmds h
    unfold processTokens
    simp only [h]
  · intro s c rest
    rfl
  · intro tokens rest cursor prev b argStart acc e hb
    rw [genGo.eq_def]
    cases hv : validateTokenOrder prev Token.and with
    | error e2 => exact ⟨e2, by simp only [hv]⟩
    | ok u => exact ⟨e, by simp only [hv, genStep, hb]⟩

/-- Witness for `c5_chain_semantics`: on `mkdir abc && cd` the trailing
`cd` fails arity validation at parse time, so the whole line is rejected
and the individually valid `mkdir abc` never runs. -/
theorem c5_chain_semantics_witness :
    processTokens sampleTree
        [Token.command CommandType.mkdir, Token.space, Token.word "abc",
         Token.space, Token.and, Token.space, Token.command CommandType.cd] =
      some (sampleTree, [Msg.syntaxErr SyntaxError.invalidArguments]) ∧
    ∃ e', genGo [Token.and] [Token.and] 0 (some (Token.word "x"))
        (some { ctype := CommandType.cd, arguments := [] }) none [] =
      PRes.err e' :=
  ⟨c5_chain_semantics.1 sampleTree
      [Token.command CommandType.mkdir, Token.space, Token.word "abc",
       Token.space, Token.and, Token.space, Token.command CommandType.cd]
      SyntaxError.invalidArguments (by decide),
   c5_chain_semantics.2.2.2 [Token.and] [] 0 (some (Token.word "x"))
      { ctype := CommandType.cd, arguments := [] } none []
      SyntaxError.invalidArguments (by decide)⟩
